import Mathlib

/-!
Verification development for the ttygrid library (src/lib.rs, src/macros.rs).

Shallow embedding notes:
- `GridHeader` mirrors the Rust struct field for field.  In Rust, headers are
  shared as `Rc<RefCell<GridHeader>>` between the registry (`TTYGrid.headers`),
  every `GridItem` of every line, and the `LengthMapper`.  All lines are built
  through the `add_line!` macro, which makes cell `i` of every line hold the
  very same shared reference as registry position `i`.  The embedding of the
  render pipeline therefore represents a line by its list of cell contents and
  rebuilds the `LengthMapper`'s view of the stored `(header, len)` pairs from
  the *current* registry (`viewLine` / `viewLenMap`): this is exactly what the
  shared references give the Rust code after `set_grid_max_len` has mutated the
  headers in place.
- `usize` values are modelled as `Nat`; the `std::usize::MAX` sentinel used by
  `determine_headers` is modelled as the exact constant `2 ^ 64 - 1`.
- Fallible code returns `Option`/`Except String` with the source's error
  strings.  The colour fields of `TTYGrid` are presentational only (never read
  by width computation or selection) and are omitted.
- The Rust `while` loops terminate because every iteration removes a column
  (or "buries" the width and exits); they are modelled with an explicit fuel
  argument that is always called with sufficiency (`length + 1` for the shrink
  loop, `reg.length` for the `set_grid_max_len` loop, matching the exact
  number of iterations of the Rust `for` loop).
-/

/-- Mirror of the Rust struct `GridHeader` (src/lib.rs lines 47-55). -/
structure GridHeader where
  index : Option Nat
  text : String
  min_size : Option Nat
  max_pad : Option Nat
  priority : Nat
  max_len : Option Nat
deriving DecidableEq

/-- Mirror of `impl Default for GridHeader` (src/lib.rs lines 57-68). -/
def GridHeader.default : GridHeader :=
  { index := none, text := "", min_size := none, max_pad := some 4,
    priority := 0, max_len := none }

/-- Mirror of `GridHeader::set_text` (builder setter, src/lib.rs lines 118-121). -/
def GridHeader.set_text (h : GridHeader) (t : String) : GridHeader :=
  { h with text := t }

/-- Mirror of `GridHeader::set_priority` (src/lib.rs lines 123-126). -/
def GridHeader.set_priority (h : GridHeader) (p : Nat) : GridHeader :=
  { h with priority := p }

/-- Mirror of `GridHeader::set_max_len` (src/lib.rs lines 114-116). -/
def GridHeader.set_max_len (h : GridHeader) (l : Nat) : GridHeader :=
  { h with max_len := some l }

/-- Mirror of `GridHeader::set_index` (src/lib.rs lines 128-130). -/
def GridHeader.set_index (h : GridHeader) (i : Nat) : GridHeader :=
  { h with index := some i }

/-- Mirror of the `header!` macro, one-argument form (src/macros.rs lines 57-62). -/
def header_new (t : String) : GridHeader :=
  GridHeader.default.set_text t

/-- Mirror of the `header!` macro, two-argument form (src/macros.rs lines 64-73). -/
def header_with_priority (t : String) (p : Nat) : GridHeader :=
  (GridHeader.default.set_text t).set_priority p

/-- Mirror of the Rust struct `GridItem` (src/lib.rs lines 141-146). -/
structure GridItem where
  header : GridHeader
  contents : String
  max_len : Option Nat
deriving DecidableEq

/-- Mirror of `GridItem::new` (src/lib.rs lines 149-155). -/
def GridItem.new (h : GridHeader) (c : String) : GridItem :=
  { header := h, contents := c, max_len := none }

/-- Mirror of `GridItem::len` (src/lib.rs lines 157-159): contents length plus
one unit of right padding. -/
def GridItem.len (it : GridItem) : Nat :=
  it.contents.length + 1

/-- Mirror of `GridLine` (src/lib.rs line 384): a newtype over a vector of items. -/
abbrev GridLine := List GridItem

/-- Mirror of the relevant state of `TTYGrid` (src/lib.rs lines 177-187).  The
four colour fields are presentational and never consulted by width
computation, selection, or the row-ingestion interface; they are omitted. -/
structure TTYGrid where
  headers : List GridHeader
  selected : List GridHeader
  lines : List GridLine
  width : Nat
deriving DecidableEq

/-- Mirror of `TTYGrid::add_line` (src/lib.rs lines 222-224): an unconditional
push onto the line list. -/
def TTYGrid.add_line (g : TTYGrid) (item : GridLine) : TTYGrid :=
  { g with lines := g.lines ++ [item] }

/-- Helper for the `add_line!` macro body: it builds the line by mapping the
content strings positionally onto the registry headers
(`$grid.headers().get(i).unwrap()`, src/macros.rs lines 94-96).  The arity
check has already guaranteed that the two lists have equal length. -/
def buildLine : List GridHeader → List String → List GridItem
  | _, [] => []
  | [], _ :: _ => []
  | h :: hs, s :: ss => GridItem.new h s :: buildLine hs ss

/-- Mirror of the `add_line!` macro (src/macros.rs lines 83-102): reject the row
if its cell count differs from the registry's column count, otherwise append
it via `TTYGrid::add_line`. -/
def add_line_checked (grid : TTYGrid) (content : List String) : Except String TTYGrid :=
  if content.length ≠ grid.headers.length then
    Except.error ("ttygrid panic: content items must equal the number of headers")
  else
    Except.ok (grid.add_line (buildLine grid.headers content))

/-- Mirror of `LengthMapper::map_lines` (src/lib.rs lines 413-424): each stored
line becomes the list of its `(header, item.len())` pairs. -/
def mapLines (lines : List GridLine) : List (List (GridHeader × Nat)) :=
  lines.map (fun line => line.map (fun it => (it.header, it.len)))

/-- Mirror of `LengthMapper::max_len_for_column` (src/lib.rs lines 426-443):
scan every stored line for the first cell whose (shared, hence current) header
equals the queried header, fail if some line has none, and otherwise return
the maximum stored length plus `max_pad.unwrap_or(0) + 2`. -/
def max_len_for_column (m : List (List (GridHeader × Nat))) (header : GridHeader) :
    Option Nat :=
  match m.foldl
      (fun acc line =>
        match acc with
        | none => none
        | some maxLen =>
          match line.find? (fun i => i.1 == header) with
          | none => none
          | some found => some (if maxLen < found.2 then found.2 else maxLen))
      (some 0) with
  | none => none
  | some maxLen => some (maxLen + header.max_pad.getD 0 + 2)

/-- Mirror of `LengthMapper::max_len_for_headers` (src/lib.rs lines 445-451):
fold the per-column results, replacing a per-column failure by the default
width `0` (`unwrap_or_default`). -/
def max_len_for_headers (m : List (List (GridHeader × Nat))) (headers : List GridHeader) :
    Nat :=
  headers.foldl (fun x h => x + (max_len_for_column m h).getD 0) 0

/-- Per-line lengths of the macro-ingested content: `item.len()` is
`contents.len() + 1` for each cell, in cell order. -/
def lineLens (lines : List (List String)) : List (List Nat) :=
  lines.map (fun line => line.map (fun s => s.length + 1))

/-- View of one stored `LengthMapper` line through the shared references: cell
`k` of every macro-ingested line holds the same `Rc` as registry position `k`,
so its current header value is the current registry entry at `k`. -/
def viewLine (reg : List GridHeader) : Nat → List Nat → List (GridHeader × Nat)
  | _, [] => []
  | k, len :: rest => (reg.getD k GridHeader.default, len) :: viewLine reg (k + 1) rest

/-- View of the whole stored `LengthMapper` through the shared references at
the current registry state. -/
def viewLenMap (reg : List GridHeader) (lens : List (List Nat)) :
    List (List (GridHeader × Nat)) :=
  lens.map (viewLine reg 0)

/-- Loop body of `TTYGrid::set_grid_max_len` (src/lib.rs lines 252-270): for
each registry position in order, compute the column's width from the current
length-mapper view and store it in the header's `max_len` field (an in-place
mutation through the shared reference).  `fuel` is called with `reg.length`,
the exact number of iterations of the Rust `for` loop.  (The second Rust loop
copies the cached widths onto each `GridItem.max_len`; those fields are only
read when formatting data rows, which no verified property consults, so that
copy is not modelled.) -/
def sgml_go (lens : List (List Nat)) : Nat → Nat → List GridHeader → Option (List GridHeader)
  | 0, _, reg => some reg
  | fuel + 1, i, reg =>
    match reg.get? i with
    | none => some reg
    | some h =>
      match max_len_for_column (viewLenMap reg lens) h with
      | none => none
      | some m => sgml_go lens fuel (i + 1) (reg.set i { h with max_len := some m })

/-- Mirror of `TTYGrid::set_grid_max_len` (src/lib.rs lines 252-270). -/
def set_grid_max_len (lens : List (List Nat)) (reg : List GridHeader) :
    Option (List GridHeader) :=
  sgml_go lens reg.length 0 reg

/-- Exact model of `std::usize::MAX`, the sentinel initialising the
lowest-priority scan in `determine_headers` (src/lib.rs line 299). -/
def USIZE_MAX : Nat := 2 ^ 64 - 1

/-- Mirror of the lowest-priority scan inside the shrink loop (src/lib.rs lines
299-308): fold left over the candidate, remembering the first index whose
priority is strictly below everything seen so far, starting from the
`usize::MAX` sentinel. -/
def findLowest (hs : List GridHeader) : Option Nat :=
  (hs.foldl
      (fun (acc : Nat × Option Nat × Nat) h =>
        if h.priority < acc.2.2 then (acc.1 + 1, some acc.1, h.priority)
        else (acc.1 + 1, acc.2.1, acc.2.2))
      (0, none, USIZE_MAX)).2.1

/-- Mirror of the inner `while max_len > self.width` shrink loop (src/lib.rs
lines 297-317): remove the first strictly-lowest-priority column and recompute
the width, or "bury" the width to `0` (exiting the loop) when no removable
column was found. -/
def shrinkLoop (vm : List (List (GridHeader × Nat))) (width : Nat) :
    Nat → List GridHeader → Nat → List GridHeader × Nat
  | 0, headers, maxLen => (headers, maxLen)
  | fuel + 1, headers, maxLen =>
    if maxLen > width then
      match findLowest headers with
      | some idx =>
        let newHeaders := headers.eraseIdx idx
        shrinkLoop vm width fuel newHeaders (max_len_for_headers vm newHeaders)
      | none => (headers, 0)
    else (headers, maxLen)

/-- Entries of `prio_map` (src/lib.rs line 284): priority sum, surviving
candidate, and its final computed width. -/
abbrev PrioEntry := Nat × (List GridHeader × Nat)

/-- Mirror of the outer `while len > 0` prefix loop (src/lib.rs lines 289-322):
for each length from the full registry down to `1`, shrink the corresponding
registry prefix and record `(priority_sum, (candidate, final_width))`, in push
order. -/
def buildPrioMap (reg' : List GridHeader) (vm : List (List (GridHeader × Nat)))
    (width : Nat) : Nat → List PrioEntry
  | 0 => []
  | len + 1 =>
    let headers := reg'.take (len + 1)
    let res := shrinkLoop vm width (headers.length + 1) headers
      (max_len_for_headers vm headers)
    (res.1.foldl (fun acc x => acc + x.priority) 0, (res.1, res.2)) ::
      buildPrioMap reg' vm width len

/-- Model of `Option<usize>` comparison used by the derived `Ord` on
`GridHeader.index`: `None` sorts below `Some`. -/
def optNatCmp : Option Nat → Option Nat → Ordering
  | none, none => Ordering.eq
  | none, some _ => Ordering.lt
  | some _, none => Ordering.gt
  | some a, some b => compare a b

/-- Mirror of `impl Ord for GridHeader` (src/lib.rs lines 84-94): compare by
priority, then by index when the left operand has one. -/
def GridHeader.cmp (a b : GridHeader) : Ordering :=
  if a.index.isSome then
    (compare a.priority b.priority).then (optNatCmp a.index b.index)
  else compare a.priority b.priority

/-- Lexicographic comparison of header lists: the derived `Ord` on
`HeaderList(Vec<SafeGridHeader>)`, whose element ordering dereferences to
`GridHeader::cmp`. -/
def headerListCmp : List GridHeader → List GridHeader → Ordering
  | [], [] => Ordering.eq
  | [], _ :: _ => Ordering.lt
  | _ :: _, [] => Ordering.gt
  | a :: as_, b :: bs => (GridHeader.cmp a b).then (headerListCmp as_ bs)

/-- Derived lexicographic ordering on `prio_map` entries
`(usize, (HeaderList, usize))`. -/
def entryCmp (x y : PrioEntry) : Ordering :=
  (compare x.1 y.1).then ((headerListCmp x.2.1 y.2.1).then (compare x.2.2 y.2.2))

/-- Model of `prio_map.sort(); prio_map.iter().last()` (src/lib.rs lines
328-330): a stable ascending sort followed by taking the last element returns
the last element, in push order, among those maximal under the entry ordering.
The fold keeps the current element whenever it is not strictly below the
running best, which selects exactly that element. -/
def pickLastMax (e : PrioEntry) (rest : List PrioEntry) : PrioEntry :=
  rest.foldl (fun acc x => if entryCmp x acc = Ordering.lt then acc else x) e

/-- Mirror of the selection write-back (src/lib.rs lines 332-334): each winning
header receives its position as `index` (via `TTYGrid::select`) and is pushed
onto the selected list in order. -/
def applySelect : Nat → List GridHeader → List GridHeader
  | _, [] => []
  | i, h :: t => { h with index := some i } :: applySelect (i + 1) t

/-- Mirror of `TTYGrid::determine_headers` (src/lib.rs lines 272-337) for a
macro-ingested grid: map the lines, set every header's `max_len` (any failure
propagates), take the fast path when everything fits, and otherwise evaluate
every registry prefix, sort the records, and select the winner.  Returns the
selected header list. -/
def determine_headers (reg : List GridHeader) (lines : List (List String))
    (width : Nat) : Except String (List GridHeader) :=
  let lens := lineLens lines
  match set_grid_max_len lens reg with
  | none => Except.error ("panic: cannot find pre-existing column in line, report this bug")
  | some reg' =>
    let vm := viewLenMap reg' lens
    let last := max_len_for_headers vm reg'
    if last ≤ width then Except.ok reg'
    else
      match buildPrioMap reg' vm width reg'.length with
      | [] => Except.error ("your terminal is too small")
      | e :: rest => Except.ok (applySelect 0 (pickLastMax e rest).2.1)

/-- Spec formula `columnRawWidth` (spec section 4.1), expressed over the
per-line cell lengths of the macro-ingested content: the maximum over all rows
of the raw width (content length + 1) stored for column position `j`. -/
def specRawWidth (lens : List (List Nat)) (j : Nat) : Nat :=
  lens.foldl (fun m line => max m (line.getD j 0)) 0

/-- Spec formula `columnDisplayWidth` (spec section 4.1):
`columnRawWidth + pad + 2`. -/
def specDisplayWidth (lens : List (List Nat)) (pad : Nat) (j : Nat) : Nat :=
  specRawWidth lens j + pad + 2

/-- Display width of the column carrying a given text, computed by the spec's
formula at that column's registry position (used to state budget properties
about a selection, whose members are identified by their text). -/
def displayWidthOfText (reg : List GridHeader) (lines : List (List String))
    (t : String) : Nat :=
  match reg.findIdx? (fun h => h.text == t) with
  | some j => specDisplayWidth (lineLens lines) ((reg.getD j GridHeader.default).max_pad.getD 0) j
  | none => 0

/-- Sum of the spec display widths of the registry columns starting at
position `j`. -/
def sumWidthsFrom (lens : List (List Nat)) : Nat → List GridHeader → Nat
  | _, [] => 0
  | j, h :: t => specDisplayWidth lens (h.max_pad.getD 0) j + sumWidthsFrom lens (j + 1) t

/-- Modelled from the spec (section 4.2): the reference Column Selector works
on the registry columns paired with their `columnDisplayWidth`. -/
def RefCol := GridHeader × Nat

/-- Modelled from the spec (section 4.2): pair each registry column with its
display width computed by the Width Mapper formulas. -/
def refCols (reg : List GridHeader) (lines : List (List String)) : List (GridHeader × Nat) :=
  (List.range reg.length).map
    (fun j => (reg.getD j GridHeader.default,
      specDisplayWidth (lineLens lines) ((reg.getD j GridHeader.default).max_pad.getD 0) j))

/-- Modelled from the spec (section 4.1): `subsetWidth` is the sum of the
member columns' display widths. -/
def subsetW (c : List (GridHeader × Nat)) : Nat :=
  (c.map (fun x => x.2)).sum

/-- Index and value of the first minimum of a list (earliest position among
equal minima): the head wins exactly when it is less than or equal to the
minimum of the tail. -/
def firstMin : List Nat → Option (Nat × Nat)
  | [] => none
  | p :: ps =>
    match firstMin ps with
    | none => some (0, p)
    | some x => if p ≤ x.2 then some (0, p) else some (x.1 + 1, x.2)

/-- First index of the minimum of a list. -/
def firstMinIdx (ps : List Nat) : Option Nat :=
  (firstMin ps).map (fun x => x.1)

/-- Modelled from the spec (section 4.2, step 2): the column removed from a
candidate is the one with the lowest priority, ties broken by the earliest
position — the first index attaining the minimum priority. -/
def refLowestIdx (c : List (GridHeader × Nat)) : Option Nat :=
  firstMinIdx (c.map (fun z => z.1.priority))

/-- Modelled from the spec (section 4.2, step 2): shrink a candidate by
repeatedly removing its lowest-priority column while its subset width exceeds
the budget.  The fuel is called with at least the candidate length plus one,
which is enough: every removal shortens the candidate and the empty candidate
has width 0. -/
def refShrink (W : Nat) : Nat → List (GridHeader × Nat) → List (GridHeader × Nat)
  | 0, c => c
  | fuel + 1, c =>
    if subsetW c ≤ W then c
    else
      match refLowestIdx c with
      | none => c
      | some i => refShrink W fuel (c.eraseIdx i)

/-- Modelled from the spec (section 4.2, steps 1-3): for each prefix length
from `N` down to `1`, shrink the prefix and record
`(priority_sum_of_final_candidate, final_candidate, final_width)`. -/
def refRecords (cols : List (GridHeader × Nat)) (W : Nat) :
    Nat → List (Nat × (List (GridHeader × Nat) × Nat))
  | 0 => []
  | len + 1 =>
    let cand := refShrink W (len + 2) (cols.take (len + 1))
    ((cand.map (fun x => x.1.priority)).sum, (cand, subsetW cand)) ::
      refRecords cols W len

/-- Modelled from the spec (section 4.2, step 4): order the recorded triples
by priority sum, breaking ties by final width. -/
def refEntryCmpOrig (x y : Nat × (List (GridHeader × Nat) × Nat)) : Ordering :=
  (compare x.1 y.1).then (compare x.2.2 y.2.2)

/-- Amended ordering of the recorded triples: the code additionally compares
the candidate header lists lexicographically (under the `GridHeader` ordering)
before the final width. -/
def refEntryCmpAmended (x y : Nat × (List (GridHeader × Nat) × Nat)) : Ordering :=
  (compare x.1 y.1).then
    ((headerListCmp (x.2.1.map (fun z => z.1)) (y.2.1.map (fun z => z.1))).then
      (compare x.2.2 y.2.2))

/-- Last maximum of the recorded triples under a given ordering, mirroring the
stable-sort-then-last choice of the implementation: among triples comparing
equal, the one recorded last (i.e. for the shortest prefix) is kept. -/
def refPick (cmp : (Nat × (List (GridHeader × Nat) × Nat)) →
    (Nat × (List (GridHeader × Nat) × Nat)) → Ordering)
    (e : Nat × (List (GridHeader × Nat) × Nat))
    (rest : List (Nat × (List (GridHeader × Nat) × Nat))) :
    Nat × (List (GridHeader × Nat) × Nat) :=
  rest.foldl (fun acc x => if cmp x acc = Ordering.lt then acc else x) e

/-- Modelled from the spec (section 4.2): the full reference selection.  A
triple whose candidate is empty is infeasible ("only the empty subset fits");
an infeasible triple never outranks a feasible one (its priority sum is 0 and
the empty list orders below every nonempty list), so ranging over all records
and failing when the winner is empty implements step 4's
`TerminalTooSmall` clause. -/
def refSelectWith (cmp : (Nat × (List (GridHeader × Nat) × Nat)) →
    (Nat × (List (GridHeader × Nat) × Nat)) → Ordering)
    (reg : List GridHeader) (lines : List (List String)) (W : Nat) :
    Option (List GridHeader) :=
  match refRecords (refCols reg lines) W reg.length with
  | [] => none
  | e :: rest =>
    let win := refPick cmp e rest
    if win.2.1.isEmpty then none else some (win.2.1.map (fun x => x.1))

/-- Reference selection with the spec's published tie-break (priority sum,
then final width). -/
def refSelectOrig (reg : List GridHeader) (lines : List (List String)) (W : Nat) :
    Option (List GridHeader) :=
  refSelectWith refEntryCmpOrig reg lines W

/-- Reference selection with the amended tie-break (priority sum, then
lexicographic candidate comparison, then final width). -/
def refSelectAmended (reg : List GridHeader) (lines : List (List String)) (W : Nat) :
    Option (List GridHeader) :=
  refSelectWith refEntryCmpAmended reg lines W

/-- Headers reachable through the public construction interface:
`GridHeader::default`, the `header!` macro (which composes `default` with the
builder setters), and the public setters `set_text`, `set_priority`,
`set_max_len` and `set_index`. -/
inductive ReachableHeader : GridHeader → Prop where
  | dflt : ReachableHeader GridHeader.default
  | text_step : ∀ h t, ReachableHeader h → ReachableHeader (h.set_text t)
  | priority_step : ∀ h p, ReachableHeader h → ReachableHeader (h.set_priority p)
  | max_len_step : ∀ h l, ReachableHeader h → ReachableHeader (h.set_max_len l)
  | index_step : ∀ h i, ReachableHeader h → ReachableHeader (h.set_index i)

/-- Rust left-aligned padded formatting of a string to a minimum
width: the text, then spaces up to the width (never truncating). -/
def padTo (s : String) (w : Nat) : String :=
  s ++ String.mk (List.replicate (w - s.length) ' ')

/-- Mirror of `impl fmt::Display for HeaderList` (src/lib.rs lines 96-111):
each header's text left-aligned to `max_len.unwrap_or(text.len() + 2)`. -/
def headerLine (sel : List GridHeader) : String :=
  sel.foldl (fun acc h => acc ++ padTo h.text (h.max_len.getD (h.text.length + 2))) ""

/-- Claim C5's width formula: the maximum over all rows of the (unique)
matching cell's content length + 1, plus the column's pad, plus 2. -/
def claimColumnWidth (lines : List GridLine) (h : GridHeader) : Nat :=
  (lines.map (fun line =>
    ((line.filter (fun it => it.header == h)).map (fun it => it.contents.length + 1)).foldl max 0)).foldl max 0
  + h.max_pad.getD 0 + 2

/-- Concrete column of priority 1 used by the C1 scenario. -/
def exR : GridHeader :=
  { index := none, text := "r", min_size := none, max_pad := some 4, priority := 1, max_len := none }

/-- Concrete column of priority 1 used by the C1 scenario. -/
def exS : GridHeader :=
  { index := none, text := "s", min_size := none, max_pad := some 4, priority := 1, max_len := none }

/-- Concrete column of priority 2 used by the C1 scenario. -/
def exT : GridHeader :=
  { index := none, text := "t", min_size := none, max_pad := some 4, priority := 2, max_len := none }

/-- Concrete registry for the C1 scenario. -/
def exC1Reg : List GridHeader := [exR, exS, exT]

/-- Concrete single row for the C1 scenario: display widths 7, 7, 8. -/
def exC1Lines : List (List String) := [["", "", "x"]]

/-- Concrete column whose priority is exactly `usize::MAX`. -/
def exM : GridHeader :=
  { index := none, text := "m", min_size := none, max_pad := some 4, priority := USIZE_MAX, max_len := none }

/-- Concrete column for the C4 scenario. -/
def exH4 : GridHeader :=
  { index := none, text := "h", min_size := none, max_pad := some 4, priority := 1, max_len := none }

/-- Concrete pad-0 column with header text "name" for the C8 scenario. -/
def exName : GridHeader :=
  { index := none, text := "name", min_size := none, max_pad := some 0, priority := 0, max_len := none }

/-- Concrete one-column grid used as a witness input for row ingestion. -/
def exGrid : TTYGrid :=
  { headers := [exR], selected := [], lines := [], width := 80 }

/-- A header after `set_grid_max_len` has written its computed width: the
column at absolute position `j` receives `max_len = columnDisplayWidth`. -/
def updH (lens : List (List Nat)) (j : Nat) (h : GridHeader) : GridHeader :=
  { h with max_len := some (specDisplayWidth lens (h.max_pad.getD 0) j) }

/-- Registry with the first `i` absolute positions carrying their computed
`max_len` (the state of the shared headers midway through
`set_grid_max_len`), with `j` the absolute position of the list's head. -/
def updTo (lens : List (List Nat)) : Nat → Nat → List GridHeader → List GridHeader
  | _, _, [] => []
  | j, i, h :: rest => (if j < i then updH lens j h else h) :: updTo lens (j + 1) i rest

/-- Registry with every position carrying its computed `max_len` (the state
of the shared headers after `set_grid_max_len` returned successfully). -/
def updFull (lens : List (List Nat)) : Nat → List GridHeader → List GridHeader
  | _, [] => []
  | j, h :: rest => updH lens j h :: updFull lens (j + 1) rest

/-- Reference recursion equivalent to the sentinel fold of `findLowest`: the
index of the first header whose priority achieves a strict running minimum
starting below `low`. -/
def lowGo (low : Nat) : List GridHeader → Option Nat
  | [] => none
  | h :: t =>
    if h.priority < low then
      match lowGo h.priority t with
      | none => some 0
      | some j => some (j + 1)
    else (lowGo low t).map (fun j => j + 1)

/-- A freshly declared column: text `t`, pad `p`, priority `pr`, no computed
state. -/
def freshHeader (t : String) (p pr : Nat) : GridHeader :=
  { index := none, text := t, min_size := none, max_pad := some p,
    priority := pr, max_len := none }

/-- A header with its render-scoped `max_len` cleared: the original registry
entry a candidate column of the reference algorithm corresponds to. -/
def stripML (h : GridHeader) : GridHeader :=
  { h with max_len := none }

/-- Correspondence between a header of the implementation's candidate (an
updated registry entry) and a column of the reference algorithm (the original
entry paired with its display width). -/
def PairRel (h : GridHeader) (c : GridHeader × Nat) : Prop :=
  c.1 = stripML h ∧ c.2 = h.max_len.getD 0

/-- Correspondence between a recorded `prio_map` entry of the implementation
and a recorded triple of the reference algorithm. -/
def EntryRel (e : PrioEntry) (r : Nat × (List (GridHeader × Nat) × Nat)) : Prop :=
  e.1 = r.1 ∧ e.2.2 = r.2.2 ∧ List.Forall₂ PairRel e.2.1 r.2.1

-- ===== theorems =====

/-- Setting one position to a value with the same `max_pad` leaves the
`max_pad` projection of the registry unchanged. -/
theorem map_pad_set (reg : List GridHeader) (i : Nat) (h v : GridHeader)
    (hget : reg.get? i = some h) (hp : v.max_pad = h.max_pad) :
    (reg.set i v).map (fun x => x.max_pad) = reg.map (fun x => x.max_pad) := by
  induction reg generalizing i with
  | nil => simp at hget
  | cons a rest ih =>
    cases i with
    | zero =>
      simp only [List.get?] at hget
      cases hget
      simp [List.set, hp]
    | succ n =>
      simp only [List.get?] at hget
      simp [List.set, ih n hget]

/-- The `set_grid_max_len` loop only writes `max_len` fields: the `max_pad`
projection of the registry is preserved. -/
theorem sgml_go_pads (lens : List (List Nat)) :
    ∀ fuel i reg reg', sgml_go lens fuel i reg = some reg' →
      reg'.map (fun x => x.max_pad) = reg.map (fun x => x.max_pad) := by
  intro fuel
  induction fuel with
  | zero => intro i reg reg' hh; simp [sgml_go] at hh; simp [hh]
  | succ n ih =>
    intro i reg reg' hh
    simp only [sgml_go] at hh
    cases hget : reg.get? i with
    | none => rw [hget] at hh; simp at hh; simp [hh]
    | some h =>
      rw [hget] at hh
      have hh2 : (match max_len_for_column (viewLenMap reg lens) h with
          | none => none
          | some m => sgml_go lens n (i + 1) (reg.set i { h with max_len := some m })) =
          some reg' := hh
      cases hc : max_len_for_column (viewLenMap reg lens) h with
      | none => rw [hc] at hh2; simp at hh2
      | some m =>
        rw [hc] at hh2
        have := ih (i + 1) (reg.set i { h with max_len := some m }) reg' hh2
        exact this.trans (map_pad_set reg i h { h with max_len := some m } hget rfl)

/-- Selection write-back only writes `index` fields: `max_pad` is preserved. -/
theorem applySelect_pads : ∀ i hs, (applySelect i hs).map (fun x => x.max_pad) =
    hs.map (fun x => x.max_pad) := by
  intro i hs
  induction hs generalizing i with
  | nil => rfl
  | cons a rest ih => simp [applySelect, ih]

/-- C10: every header reachable through the public construction interface has
`max_pad = Some(4)`, and the operations that mutate headers during a render
(`set_grid_max_len`, the selection write-back) and the public builder setters
never change the `max_pad` field. -/
theorem c10_pad_invariant :
    (∀ h, ReachableHeader h → h.max_pad = some 4) ∧
    (∀ lens reg reg', set_grid_max_len lens reg = some reg' →
      reg'.map (fun x => x.max_pad) = reg.map (fun x => x.max_pad)) ∧
    (∀ i hs, (applySelect i hs).map (fun x => x.max_pad) = hs.map (fun x => x.max_pad)) ∧
    (∀ h t, (GridHeader.set_text h t).max_pad = h.max_pad) ∧
    (∀ h p, (GridHeader.set_priority h p).max_pad = h.max_pad) ∧
    (∀ h l, (GridHeader.set_max_len h l).max_pad = h.max_pad) ∧
    (∀ h i, (GridHeader.set_index h i).max_pad = h.max_pad) := by
  refine ⟨?_, ?_, applySelect_pads, fun h t => rfl, fun h p => rfl, fun h l => rfl,
    fun h i => rfl⟩
  · intro h hr
    induction hr with
    | dflt => rfl
    | text_step h t _ ih => exact ih
    | priority_step h p _ ih => exact ih
    | max_len_step h l _ ih => exact ih
    | index_step h i _ ih => exact ih
  · intro lens reg reg' hh
    exact sgml_go_pads lens reg.length 0 reg reg' hh

/-- Witness for C10 at a concrete reachable header. -/
theorem c10_pad_invariant_witness :
    (header_with_priority ("x") 7).max_pad = some 4 :=
  c10_pad_invariant.1 (header_with_priority ("x") 7)
    (ReachableHeader.priority_step _ 7 (ReachableHeader.text_step _ ("x") ReachableHeader.dflt))

/-- C9: `TTYGrid::add_line` appends unconditionally — for every line, whatever
its cell count, the stored line list grows by exactly that line at the end,
nothing else of the grid changes, and the operation is total (it cannot
fail). -/
theorem c9_add_line_unconditional (g : TTYGrid) (item : GridLine) :
    (g.add_line item).lines = g.lines ++ [item] ∧
    (g.add_line item).lines.length = g.lines.length + 1 ∧
    (g.add_line item).headers = g.headers ∧
    (g.add_line item).selected = g.selected ∧
    (g.add_line item).width = g.width :=
  ⟨rfl, by simp [TTYGrid.add_line], rfl, rfl, rfl⟩

/-- A line built by the macro has exactly one cell per registry column. -/
theorem buildLine_length : ∀ (hs : List GridHeader) (ss : List String),
    ss.length = hs.length → (buildLine hs ss).length = hs.length := by
  intro hs
  induction hs with
  | nil => intro ss hl; cases ss with
    | nil => rfl
    | cons a b => simp at hl
  | cons h t ih =>
    intro ss hl
    cases ss with
    | nil => simp at hl
    | cons a b =>
      simp only [List.length_cons] at hl
      simp [buildLine, ih b (by omega)]

/-- C6: row ingestion through the `add_line!` macro rejects a row whose cell
count differs from the registry's column count with an error (producing no new
table state), and accepts exactly the rows of matching cell count, appending
them to the line list. -/
theorem c6_row_arity (g : TTYGrid) (content : List String) :
    (content.length ≠ g.headers.length →
      add_line_checked g content =
        Except.error ("ttygrid panic: content items must equal the number of headers")) ∧
    (content.length = g.headers.length →
      add_line_checked g content = Except.ok (g.add_line (buildLine g.headers content)) ∧
      (g.add_line (buildLine g.headers content)).lines =
        g.lines ++ [buildLine g.headers content] ∧
      (buildLine g.headers content).length = g.headers.length) := by
  constructor
  · intro hne
    simp [add_line_checked, hne]
  · intro heq
    refine ⟨by simp [add_line_checked, heq], rfl, buildLine_length g.headers content heq⟩

/-- Witness for C6 at a concrete grid: a 2-cell row against a 1-column
registry is rejected, and a 1-cell row is appended. -/
theorem c6_row_arity_witness :
    add_line_checked exGrid (["a", "b"]) =
      Except.error ("ttygrid panic: content items must equal the number of headers") ∧
    add_line_checked exGrid (["a"]) =
      Except.ok (exGrid.add_line (buildLine exGrid.headers (["a"]))) :=
  ⟨(c6_row_arity exGrid (["a", "b"])).1 (by decide),
    ((c6_row_arity exGrid (["a"])).2 (by decide)).1⟩

/-- C7 counterexample: a stored row with no cell at all makes the per-column
width computation fail, yet the subset-width computation silently replaces
that failure by the default width 0 (`unwrap_or_default`), contradicting the
claim that the error is never replaced by a default width of zero in the
subset-width path. -/
theorem c7_counterexample :
    max_len_for_column (mapLines [([] : GridLine)]) (header_new ("x")) = none ∧
    max_len_for_headers (mapLines [([] : GridLine)]) [header_new ("x")] = 0 :=
  ⟨rfl, rfl⟩

/-- C8 counterexample: with an empty row set and the single pad-0 column
"name", the render succeeds with computed width 2 (pad + 2), and the header
line is exactly the 4-character string "name" — not at least 6 characters as
the claim states. -/
theorem c8_counterexample :
    determine_headers [exName] [] 80 = Except.ok [{ exName with max_len := some 2 }] ∧
    headerLine [{ exName with max_len := some 2 }] = ("name") ∧
    (headerLine [{ exName with max_len := some 2 }]).length = 4 ∧
    ¬ 6 ≤ (headerLine [{ exName with max_len := some 2 }]).length := by
  refine ⟨rfl, by decide, by decide, by decide⟩

/-- C4 as the code behaves: with one priority-1 column of display width 17 and
budget 3 (no nonempty subset fits), `determine_headers` does not fail — it
succeeds with the empty selection, while the spec's reference algorithm
reports infeasibility (`TerminalTooSmall`). -/
theorem c4_code_behavior :
    determine_headers [exH4] [["0123456789"]] 3 = Except.ok [] ∧
    displayWidthOfText [exH4] [["0123456789"]] ("h") = 17 ∧
    ¬ 17 ≤ 3 ∧
    refSelectOrig [exH4] [["0123456789"]] 3 = none := by
  refine ⟨rfl, by decide, by decide, rfl⟩

/-- C1 counterexample: at the concrete registry (priorities 1, 1, 2; display
widths 7, 7, 8) with budget 14 and combined width 22 > 14, the code selects
the column "t" while the spec's reference algorithm (tie-break on priority
sum then final width) selects ["r", "s"]. -/
theorem c1_counterexample :
    subsetW (refCols exC1Reg exC1Lines) = 22 ∧
    ¬ 22 ≤ 14 ∧
    (determine_headers exC1Reg exC1Lines 14).map (fun l => l.map (fun h => h.text)) =
      Except.ok (["t"]) ∧
    (refSelectOrig exC1Reg exC1Lines 14).map (fun l => l.map (fun h => h.text)) =
      some (["r", "s"]) ∧
    (["t"] : List String) ≠ (["r", "s"] : List String) := by
  refine ⟨by decide, by decide, rfl, rfl, by decide⟩

/-- Accumulator characterisation of the sentinel fold inside `findLowest`. -/
theorem findLowest_fold (t : List GridHeader) :
    ∀ (c : Nat) (b : Option Nat) (low : Nat),
      (t.foldl (fun (acc : Nat × Option Nat × Nat) h =>
        if h.priority < acc.2.2 then (acc.1 + 1, some acc.1, h.priority)
        else (acc.1 + 1, acc.2.1, acc.2.2)) (c, b, low)).2.1 =
      (match lowGo low t with
      | none => b
      | some j => some (c + j)) := by
  induction t with
  | nil => intro c b low; rfl
  | cons h t ih =>
    intro c b low
    by_cases hp : h.priority < low
    · simp only [List.foldl, if_pos hp, lowGo]
      rw [ih (c + 1) (some c) h.priority]
      cases hj : lowGo h.priority t with
      | none => simp
      | some j => simp; omega
    · simp only [List.foldl, if_neg hp, lowGo, if_neg hp]
      rw [ih (c + 1) b low]
      cases hj : lowGo low t with
      | none => simp
      | some j => simp; omega

/-- The sentinel fold of `findLowest` equals the `lowGo` recursion started at
the `usize::MAX` sentinel. -/
theorem findLowest_eq_lowGo (hs : List GridHeader) :
    findLowest hs = lowGo USIZE_MAX hs := by
  unfold findLowest
  rw [findLowest_fold hs 0 none USIZE_MAX]
  cases hj : lowGo USIZE_MAX hs with
  | none => rfl
  | some j => simp

/-- Characterisation of `lowGo`: it returns the index of the first minimum,
provided that minimum lies below the bound, and nothing otherwise. -/
theorem lowGo_firstMin (t : List GridHeader) :
    ∀ b : Nat,
      lowGo b t =
      (match firstMin (t.map (fun h => h.priority)) with
      | none => none
      | some x => if x.2 < b then some x.1 else none) := by
  induction t with
  | nil => intro b; rfl
  | cons h t ih =>
    intro b
    rw [List.map_cons]
    by_cases hb : h.priority < b
    · have lhs : lowGo b (h :: t) =
          (match lowGo h.priority t with
          | none => some 0
          | some j => some (j + 1)) := by
        simp [lowGo, hb]
      rw [lhs, ih h.priority]
      cases hm : firstMin (t.map (fun h => h.priority)) with
      | none => simp [firstMin, hm, hb]
      | some x =>
        obtain ⟨j, v⟩ := x
        by_cases hv : v < h.priority
        · have h1 : ¬ h.priority ≤ v := by omega
          have h2 : v < b := by omega
          simp [firstMin, hm, hv, h1, h2]
        · have h1 : h.priority ≤ v := by omega
          simp [firstMin, hm, hv, h1, hb]
    · have lhs : lowGo b (h :: t) = (lowGo b t).map (fun j => j + 1) := by
        simp [lowGo, hb]
      rw [lhs, ih b]
      cases hm : firstMin (t.map (fun h => h.priority)) with
      | none => simp [firstMin, hm, hb]
      | some x =>
        obtain ⟨j, v⟩ := x
        by_cases hl : h.priority ≤ v
        · have hv : ¬ v < b := by omega
          simp [firstMin, hm, hl, hb, hv]
        · by_cases hv : v < b
          · simp [firstMin, hm, hl, hv]
          · simp [firstMin, hm, hl, hv]

/-- A successful `firstMin` returns an index within the list. -/
theorem firstMin_lt_length : ∀ (ps : List Nat) (x : Nat × Nat),
    firstMin ps = some x → x.1 < ps.length := by
  intro ps
  induction ps with
  | nil => intro x hx; simp [firstMin] at hx
  | cons p ps ih =>
    intro x hx
    simp only [firstMin] at hx
    cases hm : firstMin ps with
    | none => rw [hm] at hx; cases hx; simp
    | some y =>
      rw [hm] at hx
      have hx2 : (if p ≤ y.2 then some ((0 : Nat), p) else some (y.1 + 1, y.2)) = some x := hx
      by_cases hle : p ≤ y.2
      · rw [if_pos hle] at hx2; cases hx2; simp
      · rw [if_neg hle] at hx2
        cases hx2
        have := ih y hm
        simp only [List.length_cons]
        omega

/-- A successful `firstMin` returns a value occurring in the list. -/
theorem firstMin_val_mem : ∀ (ps : List Nat) (x : Nat × Nat),
    firstMin ps = some x → x.2 ∈ ps := by
  intro ps
  induction ps with
  | nil => intro x hx; simp [firstMin] at hx
  | cons p ps ih =>
    intro x hx
    simp only [firstMin] at hx
    cases hm : firstMin ps with
    | none => rw [hm] at hx; cases hx; simp
    | some y =>
      rw [hm] at hx
      have hx2 : (if p ≤ y.2 then some ((0 : Nat), p) else some (y.1 + 1, y.2)) = some x := hx
      by_cases hle : p ≤ y.2
      · rw [if_pos hle] at hx2; cases hx2; simp
      · rw [if_neg hle] at hx2
        cases hx2
        exact List.mem_cons_of_mem p (ih y hm)

/-- Under the real-usage bound (every priority strictly below `usize::MAX`),
the sentinel scan of the implementation agrees with the spec's removal rule:
the first index attaining the minimum priority. -/
theorem findLowest_eq_firstMin (hs : List GridHeader)
    (hb : ∀ h ∈ hs, h.priority < USIZE_MAX) :
    findLowest hs = firstMinIdx (hs.map (fun h => h.priority)) := by
  rw [findLowest_eq_lowGo, lowGo_firstMin]
  unfold firstMinIdx
  cases hm : firstMin (hs.map (fun h => h.priority)) with
  | none => rfl
  | some x =>
    have hmem := firstMin_val_mem _ _ hm
    obtain ⟨h, hhmem, hhp⟩ := List.mem_map.mp hmem
    have : x.2 < USIZE_MAX := by rw [← hhp]; exact hb h hhmem
    simp [this]

/-- A successful `findLowest` lies within the candidate. -/
theorem findLowest_lt_length (hs : List GridHeader) (i : Nat)
    (hfl : findLowest hs = some i) : i < hs.length := by
  rw [findLowest_eq_lowGo, lowGo_firstMin] at hfl
  cases hm : firstMin (hs.map (fun h => h.priority)) with
  | none => rw [hm] at hfl; cases hfl
  | some x =>
    rw [hm] at hfl
    have hfl2 : (if x.2 < USIZE_MAX then some x.1 else none) = some i := hfl
    by_cases hv : x.2 < USIZE_MAX
    · rw [if_pos hv] at hfl2
      cases hfl2
      have := firstMin_lt_length _ _ hm
      simpa using this
    · rw [if_neg hv] at hfl2; cases hfl2

/-- If no header's priority lies below `usize::MAX`, the scan finds nothing
(the "bury" branch). -/
theorem findLowest_none_of_empty (hs : List GridHeader) (hempty : hs = []) :
    findLowest hs = none := by
  subst hempty; rfl

/-- Unfolding of the cell scan over one stored pair. -/
theorem find?_pair_cons (q x : GridHeader) (v : Nat) (l : List (GridHeader × Nat)) :
    ((x, v) :: l).find? (fun c => c.1 == q) =
      if x = q then some (x, v) else l.find? (fun c => c.1 == q) := by
  rw [List.find?_cons]
  by_cases h : x = q
  · subst h; simp
  · have hb : (x == q) = false := beq_eq_false_iff_ne.mpr h
    rw [hb, if_neg h]

/-- The Rust running-maximum update is the maximum. -/
theorem if_lt_max (a v : Nat) : (if a < v then v else a) = max a v := by
  by_cases h : a < v
  · rw [if_pos h]; omega
  · rw [if_neg h]; omega

/-- Lookup in the viewed line: when the registry holds the queried header
exactly at position `j` (every other position differs), the scan of a line
viewed from absolute cell position `k` finds the pair `(q, len_j)` exactly
when the line reaches position `j`, and fails otherwise. -/
theorem viewLine_find (reg : List GridHeader) (q : GridHeader) (j : Nat)
    (hq : reg.get? j = some q)
    (huniq : ∀ k, k < reg.length → k ≠ j → reg.get? k ≠ some q) :
    ∀ (line : List Nat) (k : Nat), k + line.length ≤ reg.length →
      (viewLine reg k line).find? (fun c => c.1 == q) =
        (if k ≤ j ∧ j < k + line.length then some (q, line.getD (j - k) 0) else none) := by
  intro line
  induction line with
  | nil =>
    intro k hk
    have hcond : ¬ (k ≤ j ∧ j < k + ([] : List Nat).length) := by
      simp only [List.length_nil]
      omega
    rw [if_neg hcond]
    rfl
  | cons len rest ih =>
    intro k hk
    have hklt : k < reg.length := by simp only [List.length_cons] at hk; omega
    simp only [viewLine]
    rw [find?_pair_cons]
    by_cases hkj : k = j
    · subst hkj
      have hgd : reg.getD k GridHeader.default = q := by
        rw [List.getD_eq_getD_get?, hq]
        rfl
      rw [if_pos hgd, hgd]
      have hcond : k ≤ k ∧ k < k + (len :: rest).length := by
        simp only [List.length_cons]
        omega
      rw [if_pos hcond]
      simp
    · have hgetk : reg.get? k = some (reg.get ⟨k, hklt⟩) := List.get?_eq_get hklt
      have hgd : reg.getD k GridHeader.default = reg.get ⟨k, hklt⟩ := by
        rw [List.getD_eq_getD_get?, hgetk]
        rfl
      have hne : reg.getD k GridHeader.default ≠ q := by
        intro hcontra
        exact huniq k hklt hkj (by rw [hgetk, ← hcontra, hgd])
      rw [if_neg hne]
      rw [ih (k + 1) (by simp only [List.length_cons] at hk; omega)]
      by_cases hcond : k + 1 ≤ j ∧ j < k + 1 + rest.length
      · rw [if_pos hcond]
        have hcond2 : k ≤ j ∧ j < k + (len :: rest).length := by
          simp only [List.length_cons]
          omega
        rw [if_pos hcond2]
        have hjk : j - k = (j - (k + 1)) + 1 := by omega
        rw [hjk, List.getD_cons_succ]
      · rw [if_neg hcond]
        have hcond2 : ¬ (k ≤ j ∧ j < k + (len :: rest).length) := by
          simp only [List.length_cons]
          omega
        rw [if_neg hcond2]

/-- Folding the width scan over covered lines accumulates the running maximum
of the cell lengths at position `j`. -/
theorem mlfc_fold_some (reg : List GridHeader) (q : GridHeader) (j : Nat)
    (hq : reg.get? j = some q)
    (huniq : ∀ k, k < reg.length → k ≠ j → reg.get? k ≠ some q) :
    ∀ (ls : List (List Nat)) (a : Nat),
      (∀ line ∈ ls, j < line.length ∧ line.length ≤ reg.length) →
      (ls.map (viewLine reg 0)).foldl
        (fun acc line =>
          match acc with
          | none => none
          | some maxLen =>
            match line.find? (fun i => i.1 == q) with
            | none => none
            | some found => some (if maxLen < found.2 then found.2 else maxLen))
        (some a) =
      some (ls.foldl (fun m line => max m (line.getD j 0)) a) := by
  intro ls
  induction ls with
  | nil => intro a hcov; rfl
  | cons line ls ih =>
    intro a hcov
    obtain ⟨hj, hlen⟩ := hcov line (by simp)
    have hfind := viewLine_find reg q j hq huniq line 0 (by omega)
    have hcond : 0 ≤ j ∧ j < 0 + line.length := by omega
    rw [if_pos hcond] at hfind
    simp only [List.map_cons, List.foldl_cons, hfind]
    rw [if_lt_max]
    exact ih (max a (line.getD j 0)) (fun l hl => hcov l (by simp [hl]))

/-- Per-column width through the shared view when every line covers the
column: the source computation returns the spec's `columnRawWidth` plus pad
plus 2. -/
theorem mlfc_view_some (reg : List GridHeader) (lens : List (List Nat))
    (q : GridHeader) (j : Nat)
    (hq : reg.get? j = some q)
    (huniq : ∀ k, k < reg.length → k ≠ j → reg.get? k ≠ some q)
    (hcov : ∀ line ∈ lens, j < line.length ∧ line.length ≤ reg.length) :
    max_len_for_column (viewLenMap reg lens) q =
      some (specRawWidth lens j + q.max_pad.getD 0 + 2) := by
  unfold max_len_for_column viewLenMap
  rw [mlfc_fold_some reg q j hq huniq lens 0 hcov]
  rfl

/-- A `none` accumulator is absorbing for the width scan. -/
theorem mlfc_fold_none_absorb (q : GridHeader) :
    ∀ (vs : List (List (GridHeader × Nat))),
      vs.foldl
        (fun acc line =>
          match acc with
          | none => none
          | some maxLen =>
            match line.find? (fun i => i.1 == q) with
            | none => none
            | some found => some (if maxLen < found.2 then found.2 else maxLen))
        (none : Option Nat) = none := by
  intro vs
  induction vs with
  | nil => rfl
  | cons v vs ih => simpa using ih

/-- Folding the width scan over lines one of which misses position `j`
produces a failure. -/
theorem mlfc_fold_miss (reg : List GridHeader) (q : GridHeader) (j : Nat)
    (hq : reg.get? j = some q)
    (huniq : ∀ k, k < reg.length → k ≠ j → reg.get? k ≠ some q) :
    ∀ (ls : List (List Nat)) (a : Nat),
      (∀ line ∈ ls, line.length ≤ reg.length) →
      (∃ line ∈ ls, line.length ≤ j) →
      (ls.map (viewLine reg 0)).foldl
        (fun acc line =>
          match acc with
          | none => none
          | some maxLen =>
            match line.find? (fun i => i.1 == q) with
            | none => none
            | some found => some (if maxLen < found.2 then found.2 else maxLen))
        (some a) = none := by
  intro ls
  induction ls with
  | nil =>
    intro a hb hm
    simp at hm
  | cons line ls ih =>
    intro a hb hm
    have hll : line.length ≤ reg.length := hb line (by simp)
    have hfind := viewLine_find reg q j hq huniq line 0 (by omega)
    by_cases hml : line.length ≤ j
    · have hcond : ¬ (0 ≤ j ∧ j < 0 + line.length) := by omega
      rw [if_neg hcond] at hfind
      simp only [List.map_cons, List.foldl_cons, hfind]
      exact mlfc_fold_none_absorb q (ls.map (viewLine reg 0))
    · obtain ⟨l0, hl0mem, hl0⟩ := hm
      have hl0mem' : l0 ∈ ls := by
        cases hl0mem with
        | head => omega
        | tail _ hmem => exact hmem
      have hcond : 0 ≤ j ∧ j < 0 + line.length := by omega
      rw [if_pos hcond] at hfind
      simp only [List.map_cons, List.foldl_cons, hfind]
      exact ih _ (fun l hl => hb l (by simp [hl])) ⟨l0, hl0mem', hl0⟩

/-- Per-column width through the shared view when some line does not reach
the column: the source computation fails. -/
theorem mlfc_view_none (reg : List GridHeader) (lens : List (List Nat))
    (q : GridHeader) (j : Nat)
    (hq : reg.get? j = some q)
    (huniq : ∀ k, k < reg.length → k ≠ j → reg.get? k ≠ some q)
    (hbound : ∀ line ∈ lens, line.length ≤ reg.length)
    (hmiss : ∃ line ∈ lens, line.length ≤ j) :
    max_len_for_column (viewLenMap reg lens) q = none := by
  unfold max_len_for_column viewLenMap
  rw [mlfc_fold_miss reg q j hq huniq lens 0 hbound hmiss]

/-- Length preservation of the partial update. -/
theorem updTo_length (lens : List (List Nat)) :
    ∀ (reg : List GridHeader) (j i : Nat), (updTo lens j i reg).length = reg.length := by
  intro reg
  induction reg with
  | nil => intro j i; rfl
  | cons a rest ih => intro j i; simp [updTo, ih]

/-- Entries of the partial update. -/
theorem updTo_get? (lens : List (List Nat)) :
    ∀ (reg : List GridHeader) (j i k : Nat),
      (updTo lens j i reg).get? k =
        (reg.get? k).map (fun h => if j + k < i then updH lens (j + k) h else h) := by
  intro reg
  induction reg with
  | nil => intro j i k; simp [updTo]
  | cons a rest ih =>
    intro j i k
    cases k with
    | zero => simp [updTo]
    | succ n =>
      simp only [updTo, List.get?]
      rw [ih (j + 1) i n]
      have : j + 1 + n = j + (n + 1) := by omega
      rw [this]

/-- The partial update below its starting offset is the identity. -/
theorem updTo_le (lens : List (List Nat)) :
    ∀ (reg : List GridHeader) (j i : Nat), i ≤ j → updTo lens j i reg = reg := by
  intro reg
  induction reg with
  | nil => intro j i hij; rfl
  | cons a rest ih =>
    intro j i hij
    have hcond : ¬ j < i := by omega
    simp only [updTo, if_neg hcond]
    rw [ih (j + 1) i (by omega)]

/-- Writing the computed width at the next position extends the partial
update by one column. -/
theorem updTo_set (lens : List (List Nat)) :
    ∀ (reg : List GridHeader) (j r : Nat) (h : GridHeader),
      reg.get? r = some h →
      (updTo lens j (j + r) reg).set r (updH lens (j + r) h) = updTo lens j (j + r + 1) reg := by
  intro reg
  induction reg with
  | nil => intro j r h hget; simp at hget
  | cons a rest ih =>
    intro j r h hget
    cases r with
    | zero =>
      simp only [List.get?] at hget
      cases hget
      have hc1 : ¬ j < j + 0 := by omega
      have hc2 : j < j + 0 + 1 := by omega
      simp only [updTo, if_neg hc1, if_pos hc2, List.set]
      rw [updTo_le lens rest (j + 1) (j + 0) (by omega),
        updTo_le lens rest (j + 1) (j + 0 + 1) (by omega)]
      simp
    | succ n =>
      simp only [List.get?] at hget
      have hc1 : j < j + (n + 1) := by omega
      have hc2 : j < j + (n + 1) + 1 := by omega
      simp only [updTo, if_pos hc1, if_pos hc2, List.set]
      have harith : j + (n + 1) = (j + 1) + n := by omega
      rw [show j + (n + 1) + 1 = (j + 1) + n + 1 from by omega]
      rw [harith]
      rw [ih (j + 1) n h hget]

/-- The partial update covering the whole registry is the full update. -/
theorem updTo_full (lens : List (List Nat)) :
    ∀ (reg : List GridHeader) (j i : Nat), j + reg.length ≤ i →
      updTo lens j i reg = updFull lens j reg := by
  intro reg
  induction reg with
  | nil => intro j i hij; rfl
  | cons a rest ih =>
    intro j i hij
    simp only [List.length_cons] at hij
    have hc : j < i := by omega
    simp only [updTo, updFull, if_pos hc]
    rw [ih (j + 1) i (by omega)]

/-- Length preservation of the full update. -/
theorem updFull_length (lens : List (List Nat)) :
    ∀ (reg : List GridHeader) (j : Nat), (updFull lens j reg).length = reg.length := by
  intro reg
  induction reg with
  | nil => intro j; rfl
  | cons a rest ih => intro j; simp [updFull, ih]

/-- Entries of the full update. -/
theorem updFull_get? (lens : List (List Nat)) :
    ∀ (reg : List GridHeader) (j k : Nat),
      (updFull lens j reg).get? k = (reg.get? k).map (fun h => updH lens (j + k) h) := by
  intro reg
  induction reg with
  | nil => intro j k; simp [updFull]
  | cons a rest ih =>
    intro j k
    cases k with
    | zero => simp [updFull]
    | succ n =>
      simp only [updFull, List.get?]
      rw [ih (j + 1) n]
      have : j + 1 + n = j + (n + 1) := by omega
      rw [this]

/-- The full update preserves every column's text. -/
theorem updFull_texts (lens : List (List Nat)) :
    ∀ (reg : List GridHeader) (j : Nat),
      (updFull lens j reg).map (fun h => h.text) = reg.map (fun h => h.text) := by
  intro reg
  induction reg with
  | nil => intro j; rfl
  | cons a rest ih => intro j; simp [updFull, updH, ih]

/-- Two distinct positions of a registry with pairwise distinct texts hold
headers with different texts. -/
theorem nodup_texts_ne (reg : List GridHeader)
    (hnd : (reg.map (fun h => h.text)).Nodup)
    (k j : Nat) (a b : GridHeader) (hkj : k ≠ j)
    (ha : reg.get? k = some a) (hb : reg.get? j = some b) : a.text ≠ b.text := by
  intro heq
  have hma : (reg.map (fun h => h.text)).get? k = some a.text := by
    rw [List.get?_map, ha]
    rfl
  have hmb : (reg.map (fun h => h.text)).get? j = some b.text := by
    rw [List.get?_map, hb]
    rfl
  have hk : k < (reg.map (fun h => h.text)).length := (List.get?_eq_some.mp hma).choose
  have hsame : (reg.map (fun h => h.text)).get? k = (reg.map (fun h => h.text)).get? j := by
    rw [hma, hmb, heq]
  exact hkj (List.get?_inj hk hnd hsame)

/-- During the `set_grid_max_len` loop, the queried header (at the position
being processed) occurs in the current shared registry state exactly at its
own position: earlier positions already carry a `max_len`, later positions
carry a different text. -/
theorem sgml_step_unique (lens : List (List Nat)) (reg : List GridHeader)
    (hfresh : ∀ h ∈ reg, h.max_len = none)
    (hnd : (reg.map (fun h => h.text)).Nodup)
    (i : Nat) (hi : i < reg.length) (q : GridHeader) (hq : reg.get? i = some q) :
    (updTo lens 0 i reg).get? i = some q ∧
    (∀ k, k < (updTo lens 0 i reg).length → k ≠ i →
      (updTo lens 0 i reg).get? k ≠ some q) := by
  constructor
  · rw [updTo_get? lens reg 0 i i, hq]
    have hc : ¬ 0 + i < i := by omega
    simp [hc]
  · intro k hklen hki
    rw [updTo_length] at hklen
    rw [updTo_get? lens reg 0 i k]
    obtain ⟨a, ha⟩ : ∃ a, reg.get? k = some a :=
      ⟨reg.get ⟨k, hklen⟩, List.get?_eq_get hklen⟩
    rw [ha]
    by_cases hk : 0 + k < i
    · have hqfresh : q.max_len = none := hfresh q (List.get?_mem hq)
      simp only [if_pos hk]
      intro hcontra
      simp only [Option.map_some', Option.some_inj] at hcontra
      rw [← hcontra] at hqfresh
      simp [updH] at hqfresh
    · have htext := nodup_texts_ne reg hnd k i a q hki ha hq
      simp only [if_neg hk]
      intro hcontra
      simp only [Option.map_some', Option.some_inj] at hcontra
      exact htext (by rw [hcontra])

/-- Success of `set_grid_max_len` on a well-formed grid: every header gets
its computed width, producing the fully updated registry. -/
theorem sgml_go_success (lens : List (List Nat)) (reg : List GridHeader)
    (hfresh : ∀ h ∈ reg, h.max_len = none)
    (hnd : (reg.map (fun h => h.text)).Nodup)
    (harity : ∀ line ∈ lens, line.length = reg.length) :
    ∀ fuel i, fuel + i = reg.length →
      sgml_go lens fuel i (updTo lens 0 i reg) = some (updFull lens 0 reg) := by
  intro fuel
  induction fuel with
  | zero =>
    intro i hi
    simp only [sgml_go]
    rw [updTo_full lens reg 0 i (by omega)]
  | succ n ih =>
    intro i hi
    have hilt : i < reg.length := by omega
    obtain ⟨q, hq⟩ : ∃ q, reg.get? i = some q :=
      ⟨reg.get ⟨i, hilt⟩, List.get?_eq_get hilt⟩
    obtain ⟨hcur, huniq⟩ := sgml_step_unique lens reg hfresh hnd i hilt q hq
    simp only [sgml_go, hcur]
    have hcov : ∀ line ∈ lens, i < line.length ∧ line.length ≤ (updTo lens 0 i reg).length := by
      intro line hline
      rw [updTo_length]
      constructor
      · rw [harity line hline]; exact hilt
      · rw [harity line hline]
    have hmlfc := mlfc_view_some (updTo lens 0 i reg) lens q i hcur huniq hcov
    rw [hmlfc]
    have hset : (updTo lens 0 i reg).set i
        { q with max_len := some (specRawWidth lens i + q.max_pad.getD 0 + 2) } =
        updTo lens 0 (i + 1) reg := by
      have h0 : (updTo lens 0 (0 + i) reg).set i (updH lens (0 + i) q) =
          updTo lens 0 (0 + i + 1) reg := updTo_set lens reg 0 i q hq
      simpa [updH, specDisplayWidth] using h0
    show sgml_go lens n (i + 1) ((updTo lens 0 i reg).set i
        { q with max_len := some (specRawWidth lens i + q.max_pad.getD 0 + 2) }) =
      some (updFull lens 0 reg)
    rw [hset]
    exact ih (i + 1) (by omega)

/-- `set_grid_max_len` on a macro-ingested fresh grid produces the fully
updated registry. -/
theorem set_grid_max_len_success (lens : List (List Nat)) (reg : List GridHeader)
    (hfresh : ∀ h ∈ reg, h.max_len = none)
    (hnd : (reg.map (fun h => h.text)).Nodup)
    (harity : ∀ line ∈ lens, line.length = reg.length) :
    set_grid_max_len lens reg = some (updFull lens 0 reg) := by
  unfold set_grid_max_len
  have h0 : updTo lens 0 0 reg = reg := updTo_le lens reg 0 0 (by omega)
  have hmain := sgml_go_success lens reg hfresh hnd harity reg.length 0 (by omega)
  rw [h0] at hmain
  exact hmain

/-- Failure of `set_grid_max_len` when some stored row is shorter than the
registry: the first column the short row does not reach cannot be found. -/
theorem sgml_go_fail (lens : List (List Nat)) (reg : List GridHeader)
    (hfresh : ∀ h ∈ reg, h.max_len = none)
    (hnd : (reg.map (fun h => h.text)).Nodup)
    (hbound : ∀ line ∈ lens, line.length ≤ reg.length)
    (l0 : List Nat) (hl0 : l0 ∈ lens) (hshort : l0.length < reg.length) :
    ∀ fuel i, fuel + i = reg.length → i ≤ l0.length →
      sgml_go lens fuel i (updTo lens 0 i reg) = none := by
  intro fuel
  induction fuel with
  | zero => intro i hi hile; omega
  | succ n ih =>
    intro i hi hile
    have hilt : i < reg.length := by omega
    obtain ⟨q, hq⟩ : ∃ q, reg.get? i = some q :=
      ⟨reg.get ⟨i, hilt⟩, List.get?_eq_get hilt⟩
    obtain ⟨hcur, huniq⟩ := sgml_step_unique lens reg hfresh hnd i hilt q hq
    simp only [sgml_go, hcur]
    have hbound' : ∀ line ∈ lens, line.length ≤ (updTo lens 0 i reg).length := by
      intro line hline
      rw [updTo_length]
      exact hbound line hline
    by_cases hcovall : ∀ line ∈ lens, i < line.length
    · have hl0cov := hcovall l0 hl0
      have hcov : ∀ line ∈ lens, i < line.length ∧
          line.length ≤ (updTo lens 0 i reg).length :=
        fun line hline => ⟨hcovall line hline, hbound' line hline⟩
      have hmlfc := mlfc_view_some (updTo lens 0 i reg) lens q i hcur huniq hcov
      rw [hmlfc]
      have hset : (updTo lens 0 i reg).set i
          { q with max_len := some (specRawWidth lens i + q.max_pad.getD 0 + 2) } =
          updTo lens 0 (i + 1) reg := by
        have h0 : (updTo lens 0 (0 + i) reg).set i (updH lens (0 + i) q) =
            updTo lens 0 (0 + i + 1) reg := updTo_set lens reg 0 i q hq
        simpa [updH, specDisplayWidth] using h0
      show sgml_go lens n (i + 1) ((updTo lens 0 i reg).set i
          { q with max_len := some (specRawWidth lens i + q.max_pad.getD 0 + 2) }) = none
      rw [hset]
      exact ih (i + 1) (by omega) (by omega)
    · push_neg at hcovall
      obtain ⟨line, hline, hlinelen⟩ := hcovall
      have hmlfc := mlfc_view_none (updTo lens 0 i reg) lens q i hcur huniq hbound'
        ⟨line, hline, by omega⟩
      rw [hmlfc]

/-- `set_grid_max_len` fails on a fresh grid containing a row shorter than
the registry. -/
theorem set_grid_max_len_fail (lens : List (List Nat)) (reg : List GridHeader)
    (hfresh : ∀ h ∈ reg, h.max_len = none)
    (hnd : (reg.map (fun h => h.text)).Nodup)
    (hbound : ∀ line ∈ lens, line.length ≤ reg.length)
    (l0 : List Nat) (hl0 : l0 ∈ lens) (hshort : l0.length < reg.length) :
    set_grid_max_len lens reg = none := by
  unfold set_grid_max_len
  have h0 : updTo lens 0 0 reg = reg := updTo_le lens reg 0 0 (by omega)
  have hmain := sgml_go_fail lens reg hfresh hnd hbound l0 hl0 hshort reg.length 0
    (by omega) (by omega)
  rw [h0] at hmain
  exact hmain

/-- After `set_grid_max_len`, looking a (now updated) registry header up in
the shared view returns exactly its stored `max_len`. -/
theorem mlfc_updFull (lens : List (List Nat)) (reg : List GridHeader)
    (hfresh : ∀ h ∈ reg, h.max_len = none)
    (hnd : (reg.map (fun h => h.text)).Nodup)
    (harity : ∀ line ∈ lens, line.length = reg.length)
    (j : Nat) (h : GridHeader)
    (hget : (updFull lens 0 reg).get? j = some h) :
    max_len_for_column (viewLenMap (updFull lens 0 reg) lens) h = h.max_len := by
  rw [updFull_get? lens reg 0 j] at hget
  obtain ⟨a, ha, hupd⟩ : ∃ a, reg.get? j = some a ∧ updH lens (0 + j) a = h := by
    cases hga : reg.get? j with
    | none => rw [hga] at hget; cases hget
    | some a =>
      rw [hga] at hget
      simp only [Option.map_some', Option.some_inj] at hget
      exact ⟨a, rfl, hget⟩
  have hjlt : j < reg.length := by
    have := List.get?_eq_some.mp ha
    exact this.choose
  have hget' : (updFull lens 0 reg).get? j = some h := by
    rw [updFull_get? lens reg 0 j, ha]
    simp only [Option.map_some', Option.some_inj]
    exact hupd
  have huniq : ∀ k, k < (updFull lens 0 reg).length → k ≠ j →
      (updFull lens 0 reg).get? k ≠ some h := by
    intro k hklen hkj
    rw [updFull_length] at hklen
    rw [updFull_get? lens reg 0 k]
    obtain ⟨b, hb⟩ : ∃ b, reg.get? k = some b :=
      ⟨reg.get ⟨k, hklen⟩, List.get?_eq_get hklen⟩
    rw [hb]
    have htext := nodup_texts_ne reg hnd k j b a hkj hb ha
    intro hcontra
    simp only [Option.map_some', Option.some_inj] at hcontra
    apply htext
    have : (updH lens (0 + k) b).text = h.text := by rw [hcontra]
    rw [← hupd] at this
    simpa [updH] using this
  have hcov : ∀ line ∈ lens, j < line.length ∧
      line.length ≤ (updFull lens 0 reg).length := by
    intro line hline
    rw [updFull_length]
    rw [harity line hline]
    exact ⟨hjlt, le_refl _⟩
  rw [mlfc_view_some (updFull lens 0 reg) lens h j hget' huniq hcov]
  rw [← hupd]
  simp [updH, specDisplayWidth]

/-- Unrolling an additive fold. -/
theorem foldl_add_map (f : GridHeader → Nat) :
    ∀ (hs : List GridHeader) (a : Nat),
      hs.foldl (fun x h => x + f h) a = a + (hs.map f).sum := by
  intro hs
  induction hs with
  | nil => intro a; simp
  | cons h t ih =>
    intro a
    simp only [List.foldl_cons, List.map_cons, List.sum_cons]
    rw [ih (a + f h)]
    omega

/-- `max_len_for_headers` is the sum of the per-column results (with failures
mapped to 0). -/
theorem mlfh_eq_sum_map (m : List (List (GridHeader × Nat))) (hs : List GridHeader) :
    max_len_for_headers m hs =
      (hs.map (fun h => (max_len_for_column m h).getD 0)).sum := by
  unfold max_len_for_headers
  rw [foldl_add_map]
  simp

/-- After `set_grid_max_len`, the subset width of any list of (updated)
registry members is the sum of their stored `max_len` values. -/
theorem mlfh_sum (lens : List (List Nat)) (reg : List GridHeader)
    (hfresh : ∀ h ∈ reg, h.max_len = none)
    (hnd : (reg.map (fun h => h.text)).Nodup)
    (harity : ∀ line ∈ lens, line.length = reg.length)
    (hs : List GridHeader)
    (hmem : ∀ h ∈ hs, ∃ j, (updFull lens 0 reg).get? j = some h) :
    max_len_for_headers (viewLenMap (updFull lens 0 reg) lens) hs =
      (hs.map (fun h => h.max_len.getD 0)).sum := by
  rw [mlfh_eq_sum_map]
  congr 1
  apply List.map_congr_left
  intro h hmemh
  obtain ⟨j, hj⟩ := hmem h hmemh
  rw [mlfc_updFull lens reg hfresh hnd harity j h hj]

/-- The stored widths of the fully updated registry sum to the spec's total
display width. -/
theorem updFull_sum (lens : List (List Nat)) :
    ∀ (reg : List GridHeader) (j : Nat),
      ((updFull lens j reg).map (fun h => h.max_len.getD 0)).sum =
        sumWidthsFrom lens j reg := by
  intro reg
  induction reg with
  | nil => intro j; rfl
  | cons a rest ih =>
    intro j
    simp only [updFull, List.map_cons, List.sum_cons, sumWidthsFrom]
    rw [ih (j + 1)]
    simp [updH]

/-- C3: when the combined display width of all registry columns fits the
budget, the selection is the full registry in declaration order (fast path). -/
theorem c3_fits_all (reg : List GridHeader) (lines : List (List String)) (W : Nat)
    (hfresh : ∀ h ∈ reg, h.max_len = none)
    (hnd : (reg.map (fun h => h.text)).Nodup)
    (harity : ∀ line ∈ lines, line.length = reg.length)
    (hfits : sumWidthsFrom (lineLens lines) 0 reg ≤ W) :
    (determine_headers reg lines W).map (fun l => l.map (fun h => h.text)) =
      Except.ok (reg.map (fun h => h.text)) := by
  have harity' : ∀ line ∈ lineLens lines, line.length = reg.length := by
    intro line hline
    obtain ⟨l0, hl0, rfl⟩ := List.mem_map.mp hline
    simpa using harity l0 hl0
  have hsgml := set_grid_max_len_success (lineLens lines) reg hfresh hnd harity'
  have hlast : max_len_for_headers
      (viewLenMap (updFull (lineLens lines) 0 reg) (lineLens lines))
      (updFull (lineLens lines) 0 reg) = sumWidthsFrom (lineLens lines) 0 reg := by
    rw [mlfh_sum (lineLens lines) reg hfresh hnd harity' _
      (fun h hh => List.mem_iff_get?.mp hh)]
    exact updFull_sum (lineLens lines) reg 0
  simp only [determine_headers, hsgml]
  rw [hlast, if_pos hfits]
  simp only [Except.map]
  rw [updFull_texts]

/-- Witness for C3 at a concrete fitting input. -/
theorem c3_fits_all_witness :
    (determine_headers [exR] [["a"]] 80).map (fun l => l.map (fun h => h.text)) =
      Except.ok ([exR].map (fun h => h.text)) :=
  c3_fits_all [exR] [["a"]] 80 (by decide) (by decide) (by decide) (by decide)

/-- C7 (amended): when some accepted row has no cell for a required column,
the per-column failure is surfaced — `set_grid_max_len` propagates it and the
whole render fails with the missing-column error before any selection. -/
theorem c7_amended (reg : List GridHeader) (lines : List (List String)) (W : Nat)
    (hfresh : ∀ h ∈ reg, h.max_len = none)
    (hnd : (reg.map (fun h => h.text)).Nodup)
    (hbound : ∀ line ∈ lines, line.length ≤ reg.length)
    (hshort : ∃ line ∈ lines, line.length < reg.length) :
    determine_headers reg lines W =
      Except.error ("panic: cannot find pre-existing column in line, report this bug") := by
  obtain ⟨l0, hl0, hs⟩ := hshort
  have hbound' : ∀ line ∈ lineLens lines, line.length ≤ reg.length := by
    intro line hline
    obtain ⟨l1, hl1, rfl⟩ := List.mem_map.mp hline
    simpa using hbound l1 hl1
  have hfail := set_grid_max_len_fail (lineLens lines) reg hfresh hnd hbound'
    (l0.map (fun s => s.length + 1))
    (by
      unfold lineLens
      exact List.mem_map.mpr ⟨l0, hl0, rfl⟩)
    (by simpa using hs)
  simp only [determine_headers, hfail]

/-- Witness for C7's amended statement at a concrete input: a registry of one
column with an accepted empty row. -/
theorem c7_amended_witness :
    determine_headers [exR] [[]] 80 =
      Except.error ("panic: cannot find pre-existing column in line, report this bug") :=
  c7_amended [exR] [[]] 80 (by decide) (by decide) (by decide)
    ⟨[], by decide, by decide⟩

/-- C8 (amended): with an empty row set and a single fresh column of pad `p`,
a successful render computes the column width `p + 2` (raw width 0 plus pad
plus 2), and the header text occupies `max (text length) (p + 2)` characters
in the header line — the format width is only a minimum, so a longer text is
not truncated to it. -/
theorem c8_amended (t : String) (p pr W : Nat) (hW : p + 2 ≤ W) :
    (determine_headers [freshHeader t p pr] [] W).map headerLine =
      Except.ok (padTo t (p + 2)) ∧
    (padTo t (p + 2)).length = max t.length (p + 2) := by
  constructor
  · have hkey : determine_headers [freshHeader t p pr] [] W =
        Except.ok [{ freshHeader t p pr with max_len := some (p + 2) }] := by
      simp [determine_headers, set_grid_max_len, sgml_go, viewLenMap, lineLens,
        max_len_for_column, max_len_for_headers, freshHeader, hW]
    rw [hkey]
    simp only [Except.map]
    have hhl : headerLine [{ freshHeader t p pr with max_len := some (p + 2) }] =
        padTo t (p + 2) := rfl
    rw [hhl]
  · unfold padTo
    rw [String.length_append]
    have hlen : (String.mk (List.replicate ((p + 2) - t.length) ' ')).length =
        (p + 2) - t.length := by
      show (List.replicate ((p + 2) - t.length) ' ').length = (p + 2) - t.length
      simp
    rw [hlen]
    omega

/-- Witness for C8's amended statement at the concrete scenario of the claim:
pad 0, header text "name", so the header occupies max 4 2 = 4 characters. -/
theorem c8_amended_witness :
    (determine_headers [freshHeader ("name") 0 0] [] 80).map headerLine =
      Except.ok (padTo ("name") 2) ∧
    (padTo ("name") 2).length = max ("name").length 2 :=
  c8_amended ("name") 0 0 80 (by decide)

/-- `firstMin` always succeeds on a nonempty list. -/
theorem firstMin_cons_isSome (p : Nat) (ps : List Nat) :
    ∃ x, firstMin (p :: ps) = some x := by
  cases hm : firstMin ps with
  | none => exact ⟨(0, p), by simp [firstMin, hm]⟩
  | some y =>
    by_cases hle : p ≤ y.2
    · exact ⟨(0, p), by simp [firstMin, hm, hle]⟩
    · exact ⟨(y.1 + 1, y.2), by simp [firstMin, hm, hle]⟩

/-- On a nonempty candidate whose priorities all lie below `usize::MAX`, the
lowest-priority scan finds a removable column. -/
theorem findLowest_some_of_nonempty (hs : List GridHeader) (hne : hs ≠ [])
    (hb : ∀ h ∈ hs, h.priority < USIZE_MAX) :
    ∃ i, findLowest hs = some i ∧ i < hs.length := by
  rw [findLowest_eq_firstMin hs hb]
  cases hs with
  | nil => exact absurd rfl hne
  | cons h t =>
    obtain ⟨x, hx⟩ := firstMin_cons_isSome h.priority (t.map (fun g => g.priority))
    have hx' : firstMin ((h :: t).map (fun g => g.priority)) = some x := by
      rw [List.map_cons]
      exact hx
    refine ⟨x.1, ?_, ?_⟩
    · unfold firstMinIdx
      rw [hx']
      rfl
    · have := firstMin_lt_length _ _ hx'
      simpa using this

/-- Every member of the fully updated registry is the update of some original
registry entry. -/
theorem updFull_mem_char (lens : List (List Nat)) (reg : List GridHeader)
    (h : GridHeader) (hmem : h ∈ updFull lens 0 reg) :
    ∃ j a, reg.get? j = some a ∧ h = updH lens j a := by
  obtain ⟨n, hn⟩ := List.mem_iff_get?.mp hmem
  rw [updFull_get? lens reg 0 n] at hn
  cases hga : reg.get? n with
  | none => rw [hga] at hn; cases hn
  | some a =>
    rw [hga] at hn
    simp only [Option.map_some', Option.some_inj] at hn
    refine ⟨n, a, hga, ?_⟩
    rw [← hn]
    simp

/-- In a registry with pairwise distinct texts, the first index carrying a
given entry's text is that entry's index. -/
theorem findIdx?_text (reg : List GridHeader) :
    (reg.map (fun h => h.text)).Nodup →
    ∀ (j : Nat) (a : GridHeader), reg.get? j = some a →
      ∀ start, reg.findIdx? (fun x => x.text == a.text) start = some (start + j) := by
  induction reg with
  | nil =>
    intro hnd j a ha start
    simp at ha
  | cons b rest ih =>
    intro hnd j a ha start
    simp only [List.map_cons, List.nodup_cons] at hnd
    obtain ⟨hbnotin, hndrest⟩ := hnd
    cases j with
    | zero =>
      simp only [List.get?] at ha
      cases ha
      rw [List.findIdx?_cons]
      simp
    | succ n =>
      simp only [List.get?] at ha
      have hmem : a.text ∈ rest.map (fun h => h.text) :=
        List.mem_map.mpr ⟨a, List.get?_mem ha, rfl⟩
      have hne : b.text ≠ a.text := fun hcontra => hbnotin (hcontra ▸ hmem)
      rw [List.findIdx?_cons]
      have hfalse : (b.text == a.text) = false := beq_eq_false_iff_ne.mpr hne
      rw [hfalse]
      simp only [Bool.false_eq_true, if_false]
      rw [ih hndrest n a ha (start + 1)]
      congr 1
      omega

/-- The spec display width of a selected column, identified by its text,
equals the width stored in its `max_len` field by `set_grid_max_len`. -/
theorem widthOfText_updFull (reg : List GridHeader) (lines : List (List String))
    (hnd : (reg.map (fun h => h.text)).Nodup)
    (h : GridHeader) (hmem : h ∈ updFull (lineLens lines) 0 reg) :
    displayWidthOfText reg lines h.text = h.max_len.getD 0 := by
  obtain ⟨j, a, ha, rfl⟩ := updFull_mem_char (lineLens lines) reg h hmem
  unfold displayWidthOfText
  have htext : (updH (lineLens lines) j a).text = a.text := rfl
  rw [htext, findIdx?_text reg hnd j a ha 0]
  simp only [Nat.zero_add]
  have hgd : reg.getD j GridHeader.default = a := by
    rw [List.getD_eq_getD_get?, ha]
    rfl
  rw [hgd]
  simp [updH]

/-- Mapping a function that ignores the `index` field over the selection
write-back gives the same result as mapping it over the winners. -/
theorem applySelect_map {α : Type} (f : GridHeader → α)
    (hf : ∀ h i, f { h with index := some i } = f h) :
    ∀ (i : Nat) (hs : List GridHeader), (applySelect i hs).map f = hs.map f := by
  intro i hs
  induction hs generalizing i with
  | nil => rfl
  | cons h t ih => simp [applySelect, hf, ih]

/-- The chosen entry is one of the recorded entries. -/
theorem pickLastMax_mem (e : PrioEntry) (rest : List PrioEntry) :
    pickLastMax e rest ∈ e :: rest := by
  unfold pickLastMax
  suffices hgen : ∀ (l : List PrioEntry) (acc : PrioEntry),
      l.foldl (fun acc x => if entryCmp x acc = Ordering.lt then acc else x) acc = acc ∨
      l.foldl (fun acc x => if entryCmp x acc = Ordering.lt then acc else x) acc ∈ l by
    rcases hgen rest e with hcase | hcase
    · rw [hcase]; exact List.mem_cons_self e rest
    · exact List.mem_cons_of_mem e hcase
  intro l
  induction l with
  | nil => intro acc; left; rfl
  | cons x t ih =>
    intro acc
    simp only [List.foldl_cons]
    by_cases hcmp : entryCmp x acc = Ordering.lt
    · rw [if_pos hcmp]
      rcases ih acc with hcase | hcase
      · left; exact hcase
      · right; exact List.mem_cons_of_mem x hcase
    · rw [if_neg hcmp]
      rcases ih x with hcase | hcase
      · right; rw [hcase]; exact List.mem_cons_self x t
      · right; exact List.mem_cons_of_mem x hcase

/-- Invariant of the shrink loop: on candidates of "good" headers (for which
the subset-width helper returns the sum of stored widths) whose priorities
lie below `usize::MAX`, the loop returns a candidate of good headers whose
final width is its stored-width sum and fits the budget. -/
theorem shrinkLoop_invariant (vm : List (List (GridHeader × Nat))) (W : Nat)
    (good : GridHeader → Prop)
    (hmlfh : ∀ hs : List GridHeader, (∀ h ∈ hs, good h) →
      max_len_for_headers vm hs = (hs.map (fun h => h.max_len.getD 0)).sum) :
    ∀ (fuel : Nat) (hs : List GridHeader) (maxLen : Nat),
      (∀ h ∈ hs, good h) →
      (∀ h ∈ hs, h.priority < USIZE_MAX) →
      maxLen = (hs.map (fun h => h.max_len.getD 0)).sum →
      hs.length < fuel →
      (∀ h ∈ (shrinkLoop vm W fuel hs maxLen).1, good h) ∧
      (shrinkLoop vm W fuel hs maxLen).2 =
        (((shrinkLoop vm W fuel hs maxLen).1).map (fun h => h.max_len.getD 0)).sum ∧
      (shrinkLoop vm W fuel hs maxLen).2 ≤ W := by
  intro fuel
  induction fuel with
  | zero => intro hs maxLen _ _ _ hlen; omega
  | succ n ih =>
    intro hs maxLen hmem hprio hsum hlen
    by_cases hgt : maxLen > W
    · have hne : hs ≠ [] := by
        intro hempty
        subst hempty
        simp at hsum
        omega
      obtain ⟨i, hfl, hilt⟩ := findLowest_some_of_nonempty hs hne hprio
      have hstep : shrinkLoop vm W (n + 1) hs maxLen =
          shrinkLoop vm W n (hs.eraseIdx i)
            (max_len_for_headers vm (hs.eraseIdx i)) := by
        simp only [shrinkLoop, if_pos hgt, hfl]
      rw [hstep]
      have hmem' : ∀ h ∈ hs.eraseIdx i, good h :=
        fun h hh => hmem h (List.eraseIdx_subset _ _ hh)
      have hprio' : ∀ h ∈ hs.eraseIdx i, h.priority < USIZE_MAX :=
        fun h hh => hprio h (List.eraseIdx_subset _ _ hh)
      have hsum' : max_len_for_headers vm (hs.eraseIdx i) =
          ((hs.eraseIdx i).map (fun h => h.max_len.getD 0)).sum :=
        hmlfh (hs.eraseIdx i) hmem'
      have hlen' : (hs.eraseIdx i).length < n := by
        rw [List.length_eraseIdx]
        simp only [hilt, if_pos]
        omega
      exact ih (hs.eraseIdx i) _ hmem' hprio' hsum' hlen'
    · have hstep : shrinkLoop vm W (n + 1) hs maxLen = (hs, maxLen) := by
        simp only [shrinkLoop, if_neg hgt]
      rw [hstep]
      exact ⟨hmem, hsum, by omega⟩

/-- Invariant of the prefix loop: every recorded entry consists of good
headers, and its recorded width is their stored-width sum, within budget. -/
theorem buildPrioMap_invariant (reg' : List GridHeader)
    (vm : List (List (GridHeader × Nat))) (W : Nat)
    (good : GridHeader → Prop)
    (hmlfh : ∀ hs : List GridHeader, (∀ h ∈ hs, good h) →
      max_len_for_headers vm hs = (hs.map (fun h => h.max_len.getD 0)).sum)
    (hgood : ∀ h ∈ reg', good h)
    (hprio : ∀ h ∈ reg', h.priority < USIZE_MAX) :
    ∀ (len : Nat) (e : PrioEntry), e ∈ buildPrioMap reg' vm W len →
      (∀ h ∈ e.2.1, good h) ∧
      e.2.2 = (e.2.1.map (fun h => h.max_len.getD 0)).sum ∧
      e.2.2 ≤ W := by
  intro len
  induction len with
  | zero => intro e he; simp [buildPrioMap] at he
  | succ n ih =>
    intro e he
    simp only [buildPrioMap, List.mem_cons] at he
    rcases he with hhead | htail
    · subst hhead
      have hmem0 : ∀ h ∈ reg'.take (n + 1), good h :=
        fun h hh => hgood h (List.mem_of_mem_take hh)
      have hprio0 : ∀ h ∈ reg'.take (n + 1), h.priority < USIZE_MAX :=
        fun h hh => hprio h (List.mem_of_mem_take hh)
      have hsum0 : max_len_for_headers vm (reg'.take (n + 1)) =
          ((reg'.take (n + 1)).map (fun h => h.max_len.getD 0)).sum :=
        hmlfh _ hmem0
      have hlen0 : (reg'.take (n + 1)).length < (reg'.take (n + 1)).length + 1 := by omega
      exact shrinkLoop_invariant vm W good hmlfh ((reg'.take (n + 1)).length + 1)
        (reg'.take (n + 1)) _ hmem0 hprio0 hsum0 hlen0
    · exact ih e htail

/-- C2: budget invariant for every successful render of a fresh macro-ingested
grid whose priorities are below `usize::MAX`: the sum of the selected
columns' display widths never exceeds the width budget. -/
theorem c2_budget_invariant (reg : List GridHeader) (lines : List (List String))
    (W : Nat) (sel : List GridHeader)
    (hfresh : ∀ h ∈ reg, h.max_len = none)
    (hnd : (reg.map (fun h => h.text)).Nodup)
    (harity : ∀ line ∈ lines, line.length = reg.length)
    (hprio : ∀ h ∈ reg, h.priority < USIZE_MAX)
    (hok : determine_headers reg lines W = Except.ok sel) :
    (sel.map (fun h => displayWidthOfText reg lines h.text)).sum ≤ W := by
  have harity' : ∀ line ∈ lineLens lines, line.length = reg.length := by
    intro line hline
    obtain ⟨l0, hl0, rfl⟩ := List.mem_map.mp hline
    simpa using harity l0 hl0
  have hsgml := set_grid_max_len_success (lineLens lines) reg hfresh hnd harity'
  have hgoodmlfh : ∀ hs : List GridHeader,
      (∀ h ∈ hs, h ∈ updFull (lineLens lines) 0 reg) →
      max_len_for_headers (viewLenMap (updFull (lineLens lines) 0 reg) (lineLens lines)) hs =
        (hs.map (fun h => h.max_len.getD 0)).sum :=
    fun hs hmem => mlfh_sum (lineLens lines) reg hfresh hnd harity' hs
      (fun h hh => List.mem_iff_get?.mp (hmem h hh))
  have hbridge : ∀ hs : List GridHeader,
      (∀ h ∈ hs, h ∈ updFull (lineLens lines) 0 reg) →
      (hs.map (fun h => displayWidthOfText reg lines h.text)).sum =
        (hs.map (fun h => h.max_len.getD 0)).sum := by
    intro hs hmem
    congr 1
    apply List.map_congr_left
    intro h hh
    exact widthOfText_updFull reg lines hnd h (hmem h hh)
  have hprioFull : ∀ h ∈ updFull (lineLens lines) 0 reg, h.priority < USIZE_MAX := by
    intro h hh
    obtain ⟨j, a, ha, rfl⟩ := updFull_mem_char (lineLens lines) reg h hh
    have hamem : a ∈ reg := List.get?_mem ha
    simpa [updH] using hprio a hamem
  simp only [determine_headers, hsgml] at hok
  by_cases hfast : max_len_for_headers
      (viewLenMap (updFull (lineLens lines) 0 reg) (lineLens lines))
      (updFull (lineLens lines) 0 reg) ≤ W
  · rw [if_pos hfast] at hok
    have hsel : sel = updFull (lineLens lines) 0 reg := (Except.ok.inj hok).symm
    rw [hsel, hbridge _ (fun h hh => hh), ← hgoodmlfh _ (fun h hh => hh)]
    exact hfast
  · rw [if_neg hfast] at hok
    cases hbp : buildPrioMap (updFull (lineLens lines) 0 reg)
        (viewLenMap (updFull (lineLens lines) 0 reg) (lineLens lines)) W
        (updFull (lineLens lines) 0 reg).length with
    | nil =>
      rw [hbp] at hok
      simp at hok
    | cons e rest =>
      rw [hbp] at hok
      have hok2 : (Except.ok (applySelect 0 (pickLastMax e rest).2.1) :
          Except String (List GridHeader)) = Except.ok sel := hok
      have hsel : sel = applySelect 0 (pickLastMax e rest).2.1 :=
        (Except.ok.inj hok2).symm
      have hwin : pickLastMax e rest ∈ buildPrioMap (updFull (lineLens lines) 0 reg)
          (viewLenMap (updFull (lineLens lines) 0 reg) (lineLens lines)) W
          (updFull (lineLens lines) 0 reg).length := by
        rw [hbp]
        exact pickLastMax_mem e rest
      obtain ⟨hmemw, hsumw, hlew⟩ := buildPrioMap_invariant
        (updFull (lineLens lines) 0 reg)
        (viewLenMap (updFull (lineLens lines) 0 reg) (lineLens lines)) W
        (fun h => h ∈ updFull (lineLens lines) 0 reg) hgoodmlfh
        (fun h hh => hh) hprioFull _ _ hwin
      rw [hsel]
      have happ : (applySelect 0 (pickLastMax e rest).2.1).map
          (fun h => displayWidthOfText reg lines h.text) =
          ((pickLastMax e rest).2.1).map (fun h => displayWidthOfText reg lines h.text) :=
        applySelect_map (fun h => displayWidthOfText reg lines h.text)
          (fun h i => rfl) 0 ((pickLastMax e rest).2.1)
      rw [happ, hbridge _ hmemw, ← hsumw]
      exact hlew

/-- Witness for C2 at the concrete C1 scenario: the selection ["t"] of width 8
fits the budget 14. -/
theorem c2_budget_invariant_witness :
    (([{ exT with index := some 0, max_len := some 8 }]).map
      (fun h => displayWidthOfText exC1Reg exC1Lines h.text)).sum ≤ 14 :=
  c2_budget_invariant exC1Reg exC1Lines 14 [{ exT with index := some 0, max_len := some 8 }]
    (by decide) (by decide) (by decide) (by decide) (by rfl)

/-- C2 counterexample: a single column of priority exactly `usize::MAX` and
display width 16 cannot be removed by the shrink loop (the sentinel scan finds
nothing strictly below `usize::MAX`), so its width is "buried" as 0, the
candidate is recorded, and the render succeeds with a selection of width
16 > 5 — the budget invariant is violated as universally stated. -/
theorem c2_counterexample :
    determine_headers [exM] [["123456789"]] 5 =
      Except.ok [{ exM with index := some 0, max_len := some 16 }] ∧
    (([{ exM with index := some 0, max_len := some 16 }]).map
      (fun h => displayWidthOfText [exM] [["123456789"]] h.text)).sum = 16 ∧
    ¬ 16 ≤ 5 := by
  refine ⟨rfl, by decide, by decide⟩

/-- Folding `max` over a nonempty list of equal values yields that value. -/
theorem foldl_max_const (v : Nat) :
    ∀ (l : List Nat) (a : Nat), (∀ x ∈ l, x = v) → l ≠ [] → l.foldl max a = max a v := by
  intro l
  induction l with
  | nil => intro a _ hne; exact absurd rfl hne
  | cons x t ih =>
    intro a hall hne
    have hx : x = v := hall x (by simp)
    subst hx
    by_cases ht : t = []
    · subst ht; rfl
    · simp only [List.foldl_cons]
      rw [ih (max a x) (fun z hz => hall z (by simp [hz])) ht]
      omega

/-- The cell scan finds the unique cell of the queried column. -/
theorem find?_cell (h : GridHeader) :
    ∀ (line : List GridItem) (it : GridItem),
      it ∈ line → it.header = h → (∀ it' ∈ line, it'.header = h → it' = it) →
      (line.map (fun x => (x.header, GridItem.len x))).find? (fun c => c.1 == h) =
        some (it.header, it.len) := by
  intro line
  induction line with
  | nil => intro it hmem; simp at hmem
  | cons x t ih =>
    intro it hmem hith huni
    simp only [List.map_cons]
    rw [find?_pair_cons h x.header (GridItem.len x)]
    by_cases hxh : x.header = h
    · have hx : x = it := huni x (by simp) hxh
      rw [if_pos hxh, hx]
    · rw [if_neg hxh]
      have hit : it ∈ t := by
        cases hmem with
        | head => exact absurd hith hxh
        | tail _ hmem' => exact hmem'
      exact ih it hit hith (fun y hy hyh => huni y (List.mem_cons_of_mem x hy) hyh)

/-- The filtered cells of the unique column all carry its length, so their
running maximum is that length. -/
theorem filter_unique_len (h : GridHeader) (line : List GridItem) (it : GridItem)
    (hmem : it ∈ line) (hith : it.header = h)
    (huni : ∀ it' ∈ line, it'.header = h → it' = it) :
    ((line.filter (fun x => x.header == h)).map
      (fun x => x.contents.length + 1)).foldl max 0 = it.contents.length + 1 := by
  have hfmem : it ∈ line.filter (fun x => x.header == h) :=
    List.mem_filter.mpr ⟨hmem, by simp [hith]⟩
  have hall : ∀ y ∈ (line.filter (fun x => x.header == h)).map
      (fun x => x.contents.length + 1), y = it.contents.length + 1 := by
    intro y hy
    obtain ⟨x, hx, rfl⟩ := List.mem_map.mp hy
    obtain ⟨hxline, hxh⟩ := List.mem_filter.mp hx
    have : x = it := huni x hxline (by simpa using hxh)
    rw [this]
  have hne : (line.filter (fun x => x.header == h)).map
      (fun x => x.contents.length + 1) ≠ [] := by
    intro hcontra
    have : it.contents.length + 1 ∈ ([] : List Nat) := by
      rw [← hcontra]
      exact List.mem_map.mpr ⟨it, hfmem, rfl⟩
    simp at this
  have := foldl_max_const (it.contents.length + 1) _ 0 hall hne
  simpa using this

/-- Folding the width scan over rows with unique cells accumulates the
running maximum of the per-row filtered cell lengths. -/
theorem mapLines_fold (h : GridHeader) :
    ∀ (ls : List GridLine) (a : Nat),
      (∀ line ∈ ls, ∃ it ∈ line, it.header = h ∧
        ∀ it' ∈ line, it'.header = h → it' = it) →
      (mapLines ls).foldl
        (fun acc line =>
          match acc with
          | none => none
          | some maxLen =>
            match line.find? (fun i => i.1 == h) with
            | none => none
            | some found => some (if maxLen < found.2 then found.2 else maxLen)) (some a) =
      some (ls.foldl (fun m line => max m
        (((line.filter (fun x => x.header == h)).map
          (fun x => x.contents.length + 1)).foldl max 0)) a) := by
  intro ls
  induction ls with
  | nil => intro a _; rfl
  | cons line ls ih =>
    intro a huniq
    obtain ⟨it, hmem, hith, huni⟩ := huniq line (by simp)
    have hfind := find?_cell h line it hmem hith huni
    have hflt := filter_unique_len h line it hmem hith huni
    simp only [mapLines, List.map_cons, List.foldl_cons, hfind]
    rw [if_lt_max]
    have hstep := ih (max a (GridItem.len it))
      (fun l hl => huniq l (by simp [hl]))
    simp only [mapLines] at hstep
    rw [hstep, hflt]
    rfl

/-- C5: the per-column display width is the maximum over all rows of that
column's cell content length + 1, plus the column's pad, plus 2; and the
width of any ordered subset of columns is the sum of its members' display
widths. -/
theorem c5_width_formulas (lines : List GridLine) (hne : lines ≠ [])
    (hs : List GridHeader)
    (huniq : ∀ h ∈ hs, ∀ line ∈ lines, ∃ it ∈ line, it.header = h ∧
      ∀ it' ∈ line, it'.header = h → it' = it) :
    (∀ h ∈ hs, max_len_for_column (mapLines lines) h = some (claimColumnWidth lines h)) ∧
    max_len_for_headers (mapLines lines) hs =
      (hs.map (claimColumnWidth lines)).sum := by
  have hcol : ∀ h ∈ hs, max_len_for_column (mapLines lines) h =
      some (claimColumnWidth lines h) := by
    intro h hh
    unfold max_len_for_column
    rw [mapLines_fold h lines 0 (huniq h hh)]
    unfold claimColumnWidth
    rw [List.foldl_map]
  refine ⟨hcol, ?_⟩
  rw [mlfh_eq_sum_map]
  congr 1
  apply List.map_congr_left
  intro h hh
  rw [hcol h hh]
  rfl

/-- Witness for C5 at a concrete one-column, one-row table: content "ab"
(raw width 3) with pad 4 gives display width 9. -/
theorem c5_width_formulas_witness :
    (∀ h ∈ [exR], max_len_for_column (mapLines [[GridItem.new exR ("ab")]]) h =
      some (claimColumnWidth [[GridItem.new exR ("ab")]] h)) ∧
    max_len_for_headers (mapLines [[GridItem.new exR ("ab")]]) [exR] =
      ([exR].map (claimColumnWidth [[GridItem.new exR ("ab")]])).sum :=
  c5_width_formulas [[GridItem.new exR ("ab")]] (by decide) [exR] (by decide)

/-- Clearing an already-clear `max_len` is the identity. -/
theorem stripML_of_fresh (a : GridHeader) (ha : a.max_len = none) : stripML a = a := by
  cases a
  simp only [stripML] at *
  simp [ha]

/-- The `GridHeader` ordering only reads `priority` and `index`, which
`stripML` preserves. -/
theorem cmp_strip (a b : GridHeader) :
    GridHeader.cmp (stripML a) (stripML b) = GridHeader.cmp a b := rfl

/-- Under the pair correspondence, the reference subset width is the sum of
the stored widths. -/
theorem subsetW_eq : ∀ (hs : List GridHeader) (c : List (GridHeader × Nat)),
    List.Forall₂ PairRel hs c →
    subsetW c = (hs.map (fun h => h.max_len.getD 0)).sum := by
  intro hs c hrel
  induction hrel with
  | nil => rfl
  | cons hx hrest ih =>
    simp only [subsetW, List.map_cons, List.sum_cons] at *
    rw [ih, hx.2]

/-- Under the pair correspondence, the reference candidate's priorities are
the implementation candidate's priorities. -/
theorem map_prio_eq : ∀ (hs : List GridHeader) (c : List (GridHeader × Nat)),
    List.Forall₂ PairRel hs c →
    c.map (fun z => z.1.priority) = hs.map (fun h => h.priority) := by
  intro hs c hrel
  induction hrel with
  | nil => rfl
  | cons hx hrest ih =>
    simp only [List.map_cons]
    rw [ih, hx.1]
    rfl

/-- Under the pair correspondence, the reference candidate's texts are the
implementation candidate's texts. -/
theorem map_text_eq : ∀ (hs : List GridHeader) (c : List (GridHeader × Nat)),
    List.Forall₂ PairRel hs c →
    c.map (fun z => z.1.text) = hs.map (fun h => h.text) := by
  intro hs c hrel
  induction hrel with
  | nil => rfl
  | cons hx hrest ih =>
    simp only [List.map_cons]
    rw [ih, hx.1]
    rfl

/-- Removing the same position on both sides preserves the correspondence. -/
theorem forall₂_eraseIdx {α β : Type} (R : α → β → Prop) :
    ∀ (l : List α) (m : List β) (i : Nat), List.Forall₂ R l m →
      List.Forall₂ R (l.eraseIdx i) (m.eraseIdx i) := by
  intro l
  induction l with
  | nil =>
    intro m i hrel
    cases hrel
    exact List.Forall₂.nil
  | cons x t ih =>
    intro m i hrel
    cases hrel with
    | cons hx hrest =>
      cases i with
      | zero => exact hrest
      | succ n =>
        simp only [List.eraseIdx]
        exact List.Forall₂.cons hx (ih _ n hrest)

/-- Taking the same count on both sides preserves the correspondence. -/
theorem forall₂_take {α β : Type} (R : α → β → Prop) :
    ∀ (l : List α) (m : List β) (n : Nat), List.Forall₂ R l m →
      List.Forall₂ R (l.take n) (m.take n) := by
  intro l
  induction l with
  | nil =>
    intro m n hrel
    cases hrel
    cases n with
    | zero => exact List.Forall₂.nil
    | succ k => exact List.Forall₂.nil
  | cons x t ih =>
    intro m n hrel
    cases hrel with
    | cons hx hrest =>
      cases n with
      | zero => exact List.Forall₂.nil
      | succ k => exact List.Forall₂.cons hx (ih _ k hrest)

/-- The lexicographic comparison of reference candidates equals that of the
corresponding implementation candidates. -/
theorem hlc_strip : ∀ (hs : List GridHeader) (cs : List (GridHeader × Nat)),
    List.Forall₂ PairRel hs cs →
    ∀ (hs' : List GridHeader) (cs' : List (GridHeader × Nat)),
      List.Forall₂ PairRel hs' cs' →
      headerListCmp (cs.map (fun z => z.1)) (cs'.map (fun z => z.1)) =
        headerListCmp hs hs' := by
  intro hs cs h1
  induction h1 with
  | nil =>
    intro hs' cs' h2
    cases h2 with
    | nil => rfl
    | cons hy hrest2 => rfl
  | cons hx hrest ih =>
    intro hs' cs' h2
    cases h2 with
    | nil => rfl
    | cons hy hrest2 =>
      simp only [List.map_cons, headerListCmp]
      rw [hx.1, hy.1, cmp_strip, ih _ _ hrest2]

/-- The implementation's entry comparison equals the amended reference
comparison on corresponding entries. -/
theorem entryCmp_congr (e e' : PrioEntry) (r r' : Nat × (List (GridHeader × Nat) × Nat))
    (he : EntryRel e r) (he' : EntryRel e' r') :
    entryCmp e e' = refEntryCmpAmended r r' := by
  obtain ⟨hs, hw, hl⟩ := he
  obtain ⟨hs', hw', hl'⟩ := he'
  unfold entryCmp refEntryCmpAmended
  rw [← hs, ← hs', ← hw, ← hw', hlc_strip _ _ hl _ _ hl']

/-- The stable-sort-then-last choice corresponds under the entry relation. -/
theorem pick_congr : ∀ (es : List PrioEntry)
    (rs : List (Nat × (List (GridHeader × Nat) × Nat))),
    List.Forall₂ EntryRel es rs →
    ∀ (e : PrioEntry) (r : Nat × (List (GridHeader × Nat) × Nat)), EntryRel e r →
    EntryRel (pickLastMax e es) (refPick refEntryCmpAmended r rs) := by
  intro es rs hrel
  induction hrel with
  | nil => intro e r he; exact he
  | cons hx hrest ih =>
    rename_i x y xs ys
    intro e r he
    unfold pickLastMax refPick
    simp only [List.foldl_cons]
    have hcmpeq := entryCmp_congr x e y r hx he
    by_cases hcmp : entryCmp x e = Ordering.lt
    · rw [if_pos hcmp, if_pos (by rw [← hcmpeq]; exact hcmp)]
      exact ih e r he
    · rw [if_neg hcmp, if_neg (by rw [← hcmpeq]; exact hcmp)]
      exact ih x y hx

/-- Simulation of the implementation's shrink loop by the reference shrink:
on corresponding candidates they remove the same columns and end with the
same survivors and width. -/
theorem shrink_congr (vm : List (List (GridHeader × Nat))) (W : Nat)
    (good : GridHeader → Prop)
    (hmlfh : ∀ hs : List GridHeader, (∀ h ∈ hs, good h) →
      max_len_for_headers vm hs = (hs.map (fun h => h.max_len.getD 0)).sum) :
    ∀ (fuel : Nat) (hs : List GridHeader) (c : List (GridHeader × Nat)) (maxLen : Nat),
      List.Forall₂ PairRel hs c →
      (∀ h ∈ hs, good h) →
      (∀ h ∈ hs, h.priority < USIZE_MAX) →
      maxLen = (hs.map (fun h => h.max_len.getD 0)).sum →
      hs.length < fuel →
      List.Forall₂ PairRel (shrinkLoop vm W fuel hs maxLen).1 (refShrink W fuel c) ∧
      (shrinkLoop vm W fuel hs maxLen).2 = subsetW (refShrink W fuel c) := by
  intro fuel
  induction fuel with
  | zero => intro hs c maxLen _ _ _ _ hlen; omega
  | succ n ih =>
    intro hs c maxLen hrel hgood hprio hsum hlen
    have hsub : subsetW c = maxLen := by rw [subsetW_eq hs c hrel, hsum]
    by_cases hgt : maxLen > W
    · have hne : hs ≠ [] := by
        intro hempty
        subst hempty
        simp at hsum
        omega
      obtain ⟨i, hfl, hilt⟩ := findLowest_some_of_nonempty hs hne hprio
      have hreflow : refLowestIdx c = some i := by
        unfold refLowestIdx
        rw [map_prio_eq hs c hrel, ← findLowest_eq_firstMin hs hprio]
        exact hfl
      have hstep : shrinkLoop vm W (n + 1) hs maxLen =
          shrinkLoop vm W n (hs.eraseIdx i)
            (max_len_for_headers vm (hs.eraseIdx i)) := by
        simp only [shrinkLoop, if_pos hgt, hfl]
      have hnotle : ¬ subsetW c ≤ W := by omega
      have hrstep : refShrink W (n + 1) c = refShrink W n (c.eraseIdx i) := by
        simp only [refShrink, if_neg hnotle, hreflow]
      rw [hstep, hrstep]
      apply ih
      · exact forall₂_eraseIdx PairRel hs c i hrel
      · exact fun h hh => hgood h (List.eraseIdx_subset _ _ hh)
      · exact fun h hh => hprio h (List.eraseIdx_subset _ _ hh)
      · exact hmlfh _ (fun h hh => hgood h (List.eraseIdx_subset _ _ hh))
      · rw [List.length_eraseIdx]
        simp only [hilt, if_pos]
        omega
    · have hstep : shrinkLoop vm W (n + 1) hs maxLen = (hs, maxLen) := by
        simp only [shrinkLoop, if_neg hgt]
      have hle : subsetW c ≤ W := by omega
      have hrstep : refShrink W (n + 1) c = c := by
        simp only [refShrink, if_pos hle]
      rw [hstep, hrstep]
      exact ⟨hrel, hsub.symm⟩

/-- Simulation of the prefix loop: the recorded entries correspond pointwise
to the reference's recorded triples. -/
theorem records_congr (vm : List (List (GridHeader × Nat))) (W : Nat)
    (good : GridHeader → Prop)
    (hmlfh : ∀ hs : List GridHeader, (∀ h ∈ hs, good h) →
      max_len_for_headers vm hs = (hs.map (fun h => h.max_len.getD 0)).sum)
    (reg' : List GridHeader) (cols : List (GridHeader × Nat))
    (hrel : List.Forall₂ PairRel reg' cols)
    (hgood : ∀ h ∈ reg', good h)
    (hprio : ∀ h ∈ reg', h.priority < USIZE_MAX) :
    ∀ len, len ≤ reg'.length →
      List.Forall₂ EntryRel (buildPrioMap reg' vm W len) (refRecords cols W len) := by
  intro len
  induction len with
  | zero => intro _; exact List.Forall₂.nil
  | succ n ih =>
    intro hlen
    have htake : List.Forall₂ PairRel (reg'.take (n + 1)) (cols.take (n + 1)) :=
      forall₂_take PairRel reg' cols (n + 1) hrel
    have hgood0 : ∀ h ∈ reg'.take (n + 1), good h :=
      fun h hh => hgood h (List.mem_of_mem_take hh)
    have hprio0 : ∀ h ∈ reg'.take (n + 1), h.priority < USIZE_MAX :=
      fun h hh => hprio h (List.mem_of_mem_take hh)
    have hsum0 := hmlfh _ hgood0
    have hlentake : (reg'.take (n + 1)).length = n + 1 := by
      rw [List.length_take]
      omega
    simp only [buildPrioMap, refRecords]
    rw [hlentake]
    have hcore := shrink_congr vm W good hmlfh (n + 2) (reg'.take (n + 1))
      (cols.take (n + 1)) _ htake hgood0 hprio0 hsum0 (by omega)
    obtain ⟨hrelres, hwidth⟩ := hcore
    refine List.Forall₂.cons ⟨?_, hwidth, hrelres⟩ (ih (by omega))
    rw [foldl_add_map (fun x => x.priority) _ 0, map_prio_eq _ _ hrelres]
    simp only [Nat.zero_add]

/-- The fully updated registry corresponds pointwise to the reference's
column/width pairs. -/
theorem updFull_refCols (reg : List GridHeader) (lines : List (List String))
    (hfresh : ∀ h ∈ reg, h.max_len = none) :
    List.Forall₂ PairRel (updFull (lineLens lines) 0 reg) (refCols reg lines) := by
  rw [List.forall₂_iff_get]
  constructor
  · rw [updFull_length]
    unfold refCols
    simp
  · intro i h1 h2
    have hlen1 : i < reg.length := by
      rw [updFull_length] at h1
      exact h1
    have ha : reg.get? i = some (reg.get ⟨i, hlen1⟩) := List.get?_eq_get hlen1
    have hupd : (updFull (lineLens lines) 0 reg).get? i =
        some (updH (lineLens lines) i (reg.get ⟨i, hlen1⟩)) := by
      rw [updFull_get?, ha]
      simp
    have hval : (updFull (lineLens lines) 0 reg).get ⟨i, h1⟩ =
        updH (lineLens lines) i (reg.get ⟨i, hlen1⟩) := by
      have hg := List.get?_eq_get h1
      rw [hg] at hupd
      exact Option.some_inj.mp hupd
    have hcols : (refCols reg lines).get ⟨i, h2⟩ =
        (reg.getD i GridHeader.default,
          specDisplayWidth (lineLens lines)
            ((reg.getD i GridHeader.default).max_pad.getD 0) i) := by
      unfold refCols
      simp [List.get_eq_getElem]
    rw [hval, hcols]
    have hgd : reg.getD i GridHeader.default = reg.get ⟨i, hlen1⟩ := by
      rw [List.getD_eq_getD_get?, ha]
      rfl
    constructor
    · rw [hgd]
      show reg.get ⟨i, hlen1⟩ = stripML (updH (lineLens lines) i (reg.get ⟨i, hlen1⟩))
      have hstrip : stripML (updH (lineLens lines) i (reg.get ⟨i, hlen1⟩)) =
          stripML (reg.get ⟨i, hlen1⟩) := rfl
      rw [hstrip, stripML_of_fresh _ (hfresh _ (List.get_mem reg i hlen1))]
    · rw [hgd]
      rfl

/-- C1 (amended): when the combined width of all columns exceeds the budget,
every priority is below `usize::MAX`, and the amended reference selection
(priority sum, then lexicographic candidate comparison, then final width,
preferring the shortest prefix among full ties) succeeds, the implementation
selects exactly the amended reference's columns, in registry order. -/
theorem c1_amended (reg : List GridHeader) (lines : List (List String)) (W : Nat)
    (hfresh : ∀ h ∈ reg, h.max_len = none)
    (hfreshidx : ∀ h ∈ reg, h.index = none)
    (hnd : (reg.map (fun h => h.text)).Nodup)
    (harity : ∀ line ∈ lines, line.length = reg.length)
    (hprio : ∀ h ∈ reg, h.priority < USIZE_MAX)
    (hover : W < subsetW (refCols reg lines))
    (refSel : List GridHeader)
    (href : refSelectAmended reg lines W = some refSel) :
    (determine_headers reg lines W).map (fun l => l.map (fun h => h.text)) =
      Except.ok (refSel.map (fun h => h.text)) := by
  have harity' : ∀ line ∈ lineLens lines, line.length = reg.length := by
    intro line hline
    obtain ⟨l0, hl0, rfl⟩ := List.mem_map.mp hline
    simpa using harity l0 hl0
  have hsgml := set_grid_max_len_success (lineLens lines) reg hfresh hnd harity'
  have hgoodmlfh : ∀ hs : List GridHeader,
      (∀ h ∈ hs, h ∈ updFull (lineLens lines) 0 reg) →
      max_len_for_headers (viewLenMap (updFull (lineLens lines) 0 reg) (lineLens lines)) hs =
        (hs.map (fun h => h.max_len.getD 0)).sum :=
    fun hs hmem => mlfh_sum (lineLens lines) reg hfresh hnd harity' hs
      (fun h hh => List.mem_iff_get?.mp (hmem h hh))
  have hprioFull : ∀ h ∈ updFull (lineLens lines) 0 reg, h.priority < USIZE_MAX := by
    intro h hh
    obtain ⟨j, a, haj, rfl⟩ := updFull_mem_char (lineLens lines) reg h hh
    have hamem : a ∈ reg := List.get?_mem haj
    simpa [updH] using hprio a hamem
  have hbase := updFull_refCols reg lines hfresh
  have hlast_eq : max_len_for_headers
      (viewLenMap (updFull (lineLens lines) 0 reg) (lineLens lines))
      (updFull (lineLens lines) 0 reg) = subsetW (refCols reg lines) := by
    rw [hgoodmlfh _ (fun h hh => hh), subsetW_eq _ _ hbase]
  simp only [determine_headers, hsgml]
  have hslow : ¬ max_len_for_headers
      (viewLenMap (updFull (lineLens lines) 0 reg) (lineLens lines))
      (updFull (lineLens lines) 0 reg) ≤ W := by
    rw [hlast_eq]
    omega
  rw [if_neg hslow, updFull_length]
  have hreccong := records_congr
    (viewLenMap (updFull (lineLens lines) 0 reg) (lineLens lines)) W
    (fun h => h ∈ updFull (lineLens lines) 0 reg) hgoodmlfh
    (updFull (lineLens lines) 0 reg) (refCols reg lines) hbase
    (fun h hh => hh) hprioFull reg.length
    (by rw [updFull_length])
  simp only [refSelectAmended, refSelectWith] at href
  cases hrec : refRecords (refCols reg lines) W reg.length with
  | nil =>
    rw [hrec] at href
    simp at href
  | cons r rrest =>
    rw [hrec] at href
    have href2 : (if (refPick refEntryCmpAmended r rrest).2.1.isEmpty then none
        else some ((refPick refEntryCmpAmended r rrest).2.1.map (fun x => x.1))) =
        some refSel := href
    rw [hrec] at hreccong
    cases hbp : buildPrioMap (updFull (lineLens lines) 0 reg)
        (viewLenMap (updFull (lineLens lines) 0 reg) (lineLens lines)) W
        reg.length with
    | nil =>
      rw [hbp] at hreccong
      cases hreccong
    | cons e rest =>
      rw [hbp] at hreccong
      cases hreccong with
      | cons hhead htail =>
        have hwin := pick_congr rest rrest htail e r hhead
        by_cases hemp : (refPick refEntryCmpAmended r rrest).2.1.isEmpty
        · rw [if_pos hemp] at href2
          cases href2
        · rw [if_neg hemp] at href2
          have hrefsel : refSel =
              (refPick refEntryCmpAmended r rrest).2.1.map (fun x => x.1) :=
            (Option.some_inj.mp href2).symm
          show (Except.ok (applySelect 0 (pickLastMax e rest).2.1)).map
              (fun l => l.map (fun h => h.text)) =
            Except.ok (refSel.map (fun h => h.text))
          simp only [Except.map]
          congr 1
          rw [applySelect_map (fun h => h.text) (fun h i => rfl) 0]
          rw [hrefsel, List.map_map]
          exact (map_text_eq _ _ hwin.2.2).symm

/-- Witness for C1's amended statement at the concrete three-column scenario:
both the implementation and the amended reference select the column "t". -/
theorem c1_amended_witness :
    (determine_headers exC1Reg exC1Lines 14).map (fun l => l.map (fun h => h.text)) =
      Except.ok ([exT].map (fun h => h.text)) :=
  c1_amended exC1Reg exC1Lines 14 (by decide) (by decide) (by decide) (by decide)
    (by decide) (by decide) [exT] (by rfl)
